import Mathlib

/-!
Shallow embedding of the concurrent download/convert orchestration core of
the `youtube-music-downloader` repository, together with proofs checking the
frozen claims about its specification.

Source files embedded here:
  * `src/youtube_downloader/utils/file_utils.py`  (`FileManager`)
  * `src/youtube_downloader/utils/progress.py`    (`ProgressTracker`)
  * `src/youtube_downloader/core/downloader.py`   (`YouTubeDownloader`, `DownloadResult`)
  * `src/youtube_downloader/core/converter.py`    (`AudioConverter`)

Modelling conventions:
  * External collaborators (yt-dlp metadata/download calls, the ffmpeg
    subprocess) are oracles carried in an `Env` record or passed as explicit
    exit-status parameters; everything the repository code itself computes is
    translated literally.
  * The on-disk state is threaded explicitly: the `FileManager` record carries
    the output-directory listing and the lazily built cache, and file sets are
    `List String` values.
  * Python `str.lower` is modelled on the ASCII range (`Char.toLower`), which
    is the range exercised by the repository's file names; both the cache
    build and the queries use the same function, exactly as the source does.
  * Thread-pool execution (`ThreadPoolExecutor` + `as_completed`) is modelled
    by running the submitted jobs in an arbitrary serialization order: the
    completion order is a quantified permutation of the scheduled job list.
-/

namespace YMD

/-! ## Python string/path primitives used by the repository -/

/-- Python `str.lower` restricted to the ASCII letters (`Char.toLower` maps
`A`-`Z` to `a`-`z` and leaves everything else unchanged). -/
def lowerStr (s : String) : String := ⟨s.data.map Char.toLower⟩

/-- The characters removed by `FileManager.clean_filename`
(`re.sub(r'[\\/*?:"<>|]', "", filename)`). -/
def unsafeChars : List Char := ['\\', '/', '*', '?', ':', '\"', '<', '>', '|']

/-- `FileManager.clean_filename`: strip all filesystem-unsafe characters. -/
def clean_filename (s : String) : String :=
  ⟨s.data.filter (fun c => !(unsafeChars.contains c))⟩

/-- Split a path into (directory part including the trailing separator,
basename): the basename is everything after the last `/`. -/
def splitPath (s : String) : List Char × List Char :=
  let r := s.data.reverse
  let rname := r.takeWhile (fun c => c ≠ '/')
  ((r.drop rname.length).reverse, rname.reverse)

/-- `os.path.basename` (posix). -/
def basename (s : String) : String := ⟨(splitPath s).2⟩

/-- Split a file name (no separators) into (stem, extension) following
CPython `posixpath.splitext`: the extension starts at the last dot, and only
counts if some earlier character of the name is not a dot. -/
def splitName (name : List Char) : List Char × List Char :=
  let r := name.reverse
  let suf := r.takeWhile (fun c => c ≠ '.')
  if suf.length = r.length then (name, [])
  else
    let pre := (r.drop (suf.length + 1)).reverse
    if pre.any (fun c => c ≠ '.') then (pre, '.' :: suf.reverse) else (name, [])

/-- `os.path.splitext` (posix): split off the extension of the basename. -/
def splitext (s : String) : String × String :=
  let p := splitPath s
  let n := splitName p.2
  (⟨p.1 ++ n.1⟩, ⟨n.2⟩)

/-- `os.path.join` (posix) for the two-argument uses in the repository.
Implemented over the character lists so that it evaluates inside the
kernel. -/
def pyJoin (d f : String) : String :=
  if ['/'].isPrefixOf f.data then f
  else if d = "" then f
  else if ['/'].isSuffixOf d.data then d ++ f
  else d ++ "/" ++ f

/-- Python truthiness of the `str | False` values returned by
`FileManager.file_exists`: `False` and the empty string are falsy. -/
def truthy : Option String → Bool
  | none => false
  | some s => s ≠ ""

/-! ### Basic lemmas about the string primitives -/

theorem string_mk_append (a b : List Char) :
    (⟨a ++ b⟩ : String) = (⟨a⟩ : String) ++ (⟨b⟩ : String) := rfl

theorem lowerStr_data (s : String) : (lowerStr s).data = s.data.map Char.toLower := rfl

theorem lowerStr_append (a b : String) :
    lowerStr (a ++ b) = lowerStr a ++ lowerStr b := by
  show (⟨(a ++ b).data.map Char.toLower⟩ : String) = _
  rw [String.data_append, List.map_append]
  rfl

theorem char_ofNat_toNat_small {n : Nat} (h : n < 55296) :
    (Char.ofNat n).toNat = n := by
  unfold Char.ofNat
  rw [dif_pos (Or.inl h)]
  simp only [Char.ofNatAux, Char.toNat, UInt32.toNat, UInt32.ofNat', BitVec.toNat_ofNatLt]

theorem char_toLower_idem (c : Char) :
    Char.toLower (Char.toLower c) = Char.toLower c := by
  unfold Char.toLower
  by_cases h : c.toNat ≥ 65 ∧ c.toNat ≤ 90
  · rw [if_pos h]
    have hv : (Char.ofNat (c.toNat + 32)).toNat = c.toNat + 32 :=
      char_ofNat_toNat_small (by omega)
    rw [if_neg (by omega)]
  · rw [if_neg h, if_neg h]

theorem lowerStr_idem (s : String) : lowerStr (lowerStr s) = lowerStr s := by
  show (⟨(lowerStr s).data.map Char.toLower⟩ : String) = _
  rw [lowerStr_data, List.map_map]
  show (⟨s.data.map (Char.toLower ∘ Char.toLower)⟩ : String) = _
  congr 1
  exact List.map_congr_left (fun c _ => char_toLower_idem c)

theorem takeWhile_append_all {p : Char → Bool} {l₁ : List Char} (l₂ : List Char)
    (h : ∀ x ∈ l₁, p x = true) :
    (l₁ ++ l₂).takeWhile p = l₁ ++ l₂.takeWhile p := by
  induction l₁ with
  | nil => simp
  | cons c cs ih =>
    have hc : p c = true := h c (List.mem_cons_self c cs)
    simp [List.takeWhile_cons, hc, ih (fun x hx => h x (List.mem_cons_of_mem _ hx))]

theorem takeWhile_self_append (l : List Char) {p : Char → Bool} :
    l.takeWhile p ++ l.drop (l.takeWhile p).length = l := by
  conv_rhs => rw [← List.take_append_drop (l.takeWhile p).length l]
  rw [← List.prefix_iff_eq_take.mp (List.takeWhile_prefix p)]

theorem splitPath_parts (s : String) :
    (splitPath s).1 ++ (splitPath s).2 = s.data := by
  simp only [splitPath]
  rw [← List.reverse_append, takeWhile_self_append, List.reverse_reverse]

theorem splitPath_no_sep (s : String) (h : '/' ∉ s.data) :
    splitPath s = ([], s.data) := by
  simp only [splitPath]
  have ht : s.data.reverse.takeWhile (fun c => c ≠ '/') = s.data.reverse := by
    rw [List.takeWhile_eq_self_iff]
    intro x hx
    simp only [ne_eq, decide_eq_true_eq]
    intro he
    subst he
    exact h ((List.mem_reverse).mp hx)
  rw [ht]
  simp

/-- Splitting `B ++ "." ++ F` when `F` holds no separator: the separator
search stays inside `B`. -/
theorem splitPath_concat (B F : String) (hFs : '/' ∉ F.data) :
    splitPath (B ++ "." ++ F) = ((splitPath B).1, (splitPath B).2 ++ '.' :: F.data) := by
  simp only [splitPath]
  have hd : (B ++ "." ++ F).data = B.data ++ '.' :: F.data := by
    rw [String.data_append, String.data_append]
    show B.data ++ ['.'] ++ F.data = _
    simp
  have hrev : (B ++ "." ++ F).data.reverse = (F.data.reverse ++ ['.']) ++ B.data.reverse := by
    rw [hd, List.reverse_append]
    simp
  have hall : ∀ x ∈ F.data.reverse ++ ['.'], (fun c => decide (c ≠ '/')) x = true := by
    intro x hx
    simp only [decide_eq_true_eq, ne_eq]
    rcases List.mem_append.mp hx with h1 | h1
    · intro he; subst he; exact hFs ((List.mem_reverse).mp h1)
    · simp only [List.mem_singleton] at h1; subst h1; decide
  have htw : ((F.data.reverse ++ ['.']) ++ B.data.reverse).takeWhile (fun c => decide (c ≠ '/'))
      = (F.data.reverse ++ ['.']) ++ B.data.reverse.takeWhile (fun c => decide (c ≠ '/')) :=
    takeWhile_append_all _ hall
  rw [hrev, htw]
  refine Prod.ext ?_ ?_
  · simp only
    rw [List.length_append, List.drop_append]
  · simp only
    rw [List.reverse_append, List.reverse_append]
    simp

theorem splitName_concat (nameB F : List Char) (hFd : '.' ∉ F)
    (hB : nameB.any (fun c => c ≠ '.') = true) :
    splitName (nameB ++ '.' :: F) = (nameB, '.' :: F) := by
  simp only [splitName]
  have hrev : (nameB ++ '.' :: F).reverse = (F.reverse ++ ['.']) ++ nameB.reverse := by
    rw [List.reverse_append]
    simp
  have hsufall : ∀ x ∈ F.reverse, (fun c => decide (c ≠ '.')) x = true := by
    intro x hx
    simp only [decide_eq_true_eq, ne_eq]
    intro he; subst he; exact hFd ((List.mem_reverse).mp hx)
  have hsuf : ((F.reverse ++ ['.']) ++ nameB.reverse).takeWhile (fun c => decide (c ≠ '.'))
      = F.reverse := by
    rw [List.append_assoc]
    rw [takeWhile_append_all _ hsufall]
    simp [List.takeWhile_cons]
  rw [hrev, hsuf]
  have hlen : ¬ F.reverse.length = ((F.reverse ++ ['.']) ++ nameB.reverse).length := by
    simp only [List.length_append, List.length_reverse, List.length_singleton]
    omega
  rw [if_neg hlen]
  have hdrop : ((F.reverse ++ ['.']) ++ nameB.reverse).drop (F.reverse.length + 1)
      = nameB.reverse := by
    have : F.reverse.length + 1 = (F.reverse ++ ['.']).length := by simp
    rw [this, List.drop_left]
  rw [hdrop, List.reverse_reverse]
  rw [if_pos (by simpa using hB)]
  simp

theorem splitext_concat (B F : String) (hFs : '/' ∉ F.data) (hFd : '.' ∉ F.data)
    (hB : (splitPath B).2.any (fun c => c ≠ '.') = true) :
    splitext (B ++ "." ++ F) = (B, "." ++ F) := by
  simp only [splitext]
  rw [splitPath_concat B F hFs]
  simp only
  rw [splitName_concat _ _ hFd hB]
  refine Prod.ext ?_ ?_
  · simp only
    rw [splitPath_parts]
  · rfl

/-! ## `FileManager` (src/youtube_downloader/utils/file_utils.py)

The record carries the output/temp directory names, the (point-in-time)
listing of the output directory, whether that directory exists, and the
lazily-built file cache (`_file_cache` / `_cache_initialized`).  The cache is
an ordered association list mirroring the insertion-ordered Python dict. -/

structure FileManager where
  output_dir : String
  temp_dir : String
  listing : List String
  dirExists : Bool
  cache : List (String × List (String × String × String))
  cacheInit : Bool
deriving DecidableEq

/-- Ordered-dict lookup. -/
def lookupGroup {α : Type} : List (String × α) → String → Option α
  | [], _ => none
  | (k', v) :: rest, k => if k' = k then some v else lookupGroup rest k

/-- Ordered-dict "append to the group of `k`, creating it at the end if
absent" (the `if file_base not in ... / .append(...)` idiom). -/
def cacheInsert {α : Type} : List (String × List α) → String → α → List (String × List α)
  | [], k, e => [(k, [e])]
  | (k', es) :: rest, k, e =>
    if k' = k then (k', es ++ [e]) :: rest else (k', es) :: cacheInsert rest k e

/-- The tuple stored per file by `_initialize_file_cache`:
`(file, file_ext, file_path)` with `file_ext` lower-cased. -/
def cacheEntry (dir f : String) : String × String × String :=
  (f, lowerStr (splitext f).2, pyJoin dir f)

/-- The dict key used by `_initialize_file_cache`: the lower-cased stem of
the directory entry (note: no unsafe-character stripping here). -/
def cacheKey (f : String) : String := lowerStr (splitext f).1

/-- The cache built by one full scan of the output directory. -/
def buildCache (dir : String) (listing : List String) :
    List (String × List (String × String × String)) :=
  listing.foldl (fun c f => cacheInsert c (cacheKey f) (cacheEntry dir f)) []

/-- `FileManager._initialize_file_cache`. -/
def initialize_file_cache (fm : FileManager) : FileManager :=
  if !fm.dirExists || fm.cacheInit then fm
  else { fm with cache := buildCache fm.output_dir fm.listing, cacheInit := true }

/-- `FileManager.file_exists(title, extension)`: returns the found path
(`False` is modelled as `none`) together with the updated manager state. -/
def file_exists (fm : FileManager) (title : String) (extension : Option String) :
    Option String × FileManager :=
  if !fm.dirExists then (none, fm)
  else
    let fm1 := initialize_file_cache fm
    let clean_title := lowerStr (clean_filename title)
    match lookupGroup fm1.cache clean_title with
    | some matching_files =>
      match extension with
      | some e =>
        let ext := "." ++ lowerStr e
        (matching_files.findSome?
          (fun t => if lowerStr t.2.1 = ext then some t.2.2 else none), fm1)
      | none => (matching_files.head?.map (fun t => t.2.2), fm1)
    | none => (none, fm1)

/-- `FileManager.invalidate_cache`. -/
def invalidate_cache (fm : FileManager) : FileManager := { fm with cacheInit := false }

/-- `FileManager.move_file(source, destination=None)`: computes the
destination (output dir + basename when not given), removes a pre-existing
destination file, renames, and invalidates the cache.  `none` models the
`FileNotFoundError` that `os.rename` raises when the source is gone.  The
output-directory listing is refreshed for default-destination moves; repo
callers never pass an explicit destination.  `os.makedirs` on the
destination directory is not modelled. -/
def move_file (fm : FileManager) (fs : List String) (source : String)
    (dest? : Option String) : Option (String × List String × FileManager) :=
  let destination := match dest? with
    | some d => d
    | none => pyJoin fm.output_dir (basename source)
  let fs1 := if destination ∈ fs then fs.erase destination else fs
  if source ∈ fs1 then
    let fm1 := match dest? with
      | none => { fm with listing :=
          (if basename source ∈ fm.listing then fm.listing
           else fm.listing ++ [basename source]) }
      | some _ => fm
    some (destination, (fs1.erase source) ++ [destination], invalidate_cache fm1)
  else none

/-! ### Cache lemmas -/

/-- All entries of the listing whose cache key is `k`, in listing order. -/
def entriesOf (dir : String) (listing : List String) (k : String) :
    List (String × String × String) :=
  listing.filterMap (fun f => if cacheKey f = k then some (cacheEntry dir f) else none)

theorem lookup_cacheInsert {α : Type} (c : List (String × List α)) (k' : String) (e : α)
    (k : String) :
    lookupGroup (cacheInsert c k' e) k =
      if k' = k then some ((lookupGroup c k).getD [] ++ [e]) else lookupGroup c k := by
  induction c with
  | nil =>
    by_cases h : k' = k <;> simp [cacheInsert, lookupGroup, h]
  | cons p rest ih =>
    obtain ⟨k₀, es⟩ := p
    by_cases h0 : k₀ = k'
    · subst h0
      by_cases hk : k₀ = k
      · subst hk
        simp [cacheInsert, lookupGroup]
      · simp [cacheInsert, lookupGroup, hk]
    · by_cases hk : k₀ = k
      · subst hk
        have hne : ¬ k' = k₀ := fun he => h0 he.symm
        simp [cacheInsert, lookupGroup, h0, hne]
      · simp [cacheInsert, lookupGroup, h0, hk, ih]

theorem lookup_fold (dir : String) (l : List String) :
    ∀ (c : List (String × List (String × String × String))) (k : String),
      lookupGroup (l.foldl (fun c f => cacheInsert c (cacheKey f) (cacheEntry dir f)) c) k
        = match lookupGroup c k with
          | some es => some (es ++ entriesOf dir l k)
          | none =>
            if entriesOf dir l k = [] then none else some (entriesOf dir l k) := by
  induction l with
  | nil =>
    intro c k
    cases h : lookupGroup c k <;> simp [entriesOf, h]
  | cons f fs ih =>
    intro c k
    rw [List.foldl_cons, ih]
    rw [lookup_cacheInsert]
    by_cases hk : cacheKey f = k
    · rw [if_pos hk]
      have he : entriesOf dir (f :: fs) k = cacheEntry dir f :: entriesOf dir fs k := by
        simp [entriesOf, List.filterMap_cons, hk]
      cases h : lookupGroup c k with
      | some es => simp [he, h]
      | none => simp [he, h]
    · rw [if_neg hk]
      have he : entriesOf dir (f :: fs) k = entriesOf dir fs k := by
        simp [entriesOf, List.filterMap_cons, hk]
      rw [he]

theorem lookup_buildCache (dir : String) (listing : List String) (k : String) :
    lookupGroup (buildCache dir listing) k =
      if entriesOf dir listing k = [] then none else some (entriesOf dir listing k) := by
  unfold buildCache
  rw [lookup_fold]
  rfl

/-- `clean_filename s = s` exactly when `s` holds no unsafe character. -/
theorem clean_filename_eq_self (s : String) :
    clean_filename s = s ↔ ∀ c ∈ s.data, c ∉ unsafeChars := by
  constructor
  · intro h c hc hmem
    have hdata : s.data.filter (fun c => !(unsafeChars.contains c)) = s.data :=
      congrArg String.data h
    rw [List.filter_eq_self] at hdata
    have hcc := hdata c hc
    simp at hcc
    exact hcc hmem
  · intro h
    unfold clean_filename
    have hdata : s.data.filter (fun c => !(unsafeChars.contains c)) = s.data := by
      rw [List.filter_eq_self]
      intro a ha
      simp [h a ha]
    rw [hdata]

/-! ### `file_exists` state threading -/

/-- The `FileManager` state after any `file_exists` query. -/
def fmQ (fm : FileManager) : FileManager :=
  if fm.dirExists then initialize_file_cache fm else fm

theorem initialize_file_cache_fields (fm : FileManager) :
    (initialize_file_cache fm).output_dir = fm.output_dir
    ∧ (initialize_file_cache fm).temp_dir = fm.temp_dir
    ∧ (initialize_file_cache fm).listing = fm.listing
    ∧ (initialize_file_cache fm).dirExists = fm.dirExists := by
  unfold initialize_file_cache
  by_cases h : !fm.dirExists || fm.cacheInit <;> simp [h]

theorem initialize_file_cache_idem (fm : FileManager) :
    initialize_file_cache (initialize_file_cache fm) = initialize_file_cache fm := by
  unfold initialize_file_cache
  by_cases h : !fm.dirExists || fm.cacheInit
  · simp [h]
  · simp only [h, Bool.false_eq_true, if_false]
    have : (!fm.dirExists : Bool) = false := by
      cases hd : fm.dirExists
      · simp [hd] at h
      · simp
    simp [this]

theorem fmQ_dirExists (fm : FileManager) : (fmQ fm).dirExists = fm.dirExists := by
  unfold fmQ
  by_cases h : fm.dirExists <;> simp [h, (initialize_file_cache_fields fm).2.2.2]

theorem file_exists_snd (fm : FileManager) (t : String) (e : Option String) :
    (file_exists fm t e).2 = fmQ fm := by
  unfold file_exists fmQ
  by_cases hd : fm.dirExists
  · simp only [hd, Bool.not_true, Bool.false_eq_true, if_false, if_true]
    cases lookupGroup (initialize_file_cache fm).cache (lowerStr (clean_filename t)) with
    | some g => cases e <;> rfl
    | none => rfl
  · simp [hd]

theorem file_exists_fst_fmQ (fm : FileManager) (t : String) (e : Option String) :
    (file_exists (fmQ fm) t e).1 = (file_exists fm t e).1 := by
  unfold fmQ
  by_cases hd : fm.dirExists
  · rw [if_pos hd]
    unfold file_exists
    rw [(initialize_file_cache_fields fm).2.2.2, initialize_file_cache_idem]
    simp [hd]
  · rw [if_neg hd]

theorem no_unsafe_no_slash (T : String) (h : clean_filename T = T) : '/' ∉ T.data :=
  fun hm => ((clean_filename_eq_self T).mp h '/' hm) (by decide)

theorem cons_of_ne_nil_all_eq {α : Type} {l : List α} {a : α} (hne : l ≠ [])
    (hall : ∀ x ∈ l, x = a) : ∃ rest, l = a :: rest := by
  obtain ⟨b, rest, rfl⟩ := List.exists_cons_of_ne_nil hne
  exact ⟨rest, by rw [hall b (List.mem_cons_self b rest)]⟩

theorem lowerStr_dot_append (E : String) : lowerStr ("." ++ E) = "." ++ lowerStr E := by
  rw [lowerStr_append]
  rfl

/-- normalization mismatch of the Existence Index: a directory entry is
grouped under its lower-cased stem only, while queries additionally strip
the unsafe characters, so an entry whose stem holds an unsafe character is
never stored under the key a query computes for that same stem. -/
theorem C2_normalization_counterexample :
    lowerStr (clean_filename "a*x") = "ax"
    ∧ cacheKey "a*x.wav" = "a*x"
    ∧ lookupGroup (buildCache "downloads" ["a*x.wav"]) (lowerStr (clean_filename "a*x")) = none
    ∧ (file_exists
        { output_dir := "downloads", temp_dir := "temp_downloads",
          listing := ["a*x.wav"], dirExists := true,
          cache := [], cacheInit := false }
        "a*x" (some "wav")).1 = none := by
  refine ⟨by decide, by decide, by decide, by decide⟩

/-- C2 (amended): the cache groups by lower-cased stem (no stripping); for a
title with no unsafe characters whose lower-cased form matches a unique
directory entry `T.E`, both the extension-filtered query and the
unfiltered query return that entry's full path. -/
theorem C2_file_exists_finds_entry (fm : FileManager) (T E : String)
    (hInit : fm.cacheInit = false)
    (hDir : fm.dirExists = true)
    (hClean : clean_filename T = T)
    (hTd : T.data.any (fun c => c ≠ '.') = true)
    (hE1 : '/' ∉ E.data) (hE2 : '.' ∉ E.data)
    (hMem : (T ++ "." ++ E) ∈ fm.listing)
    (hUniq : ∀ f ∈ fm.listing, lowerStr (splitext f).1 = lowerStr T → f = T ++ "." ++ E) :
    (file_exists fm T (some E)).1 = some (pyJoin fm.output_dir (T ++ "." ++ E))
    ∧ (file_exists fm T none).1 = some (pyJoin fm.output_dir (T ++ "." ++ E)) := by
  have hsx : splitext (T ++ "." ++ E) = (T, "." ++ E) := by
    refine splitext_concat T E hE1 hE2 ?_
    rw [splitPath_no_sep T (no_unsafe_no_slash T hClean)]
    simpa using hTd
  have hkey : cacheKey (T ++ "." ++ E) = lowerStr T := by
    unfold cacheKey
    rw [hsx]
  have hfm1 : initialize_file_cache fm =
      { fm with cache := buildCache fm.output_dir fm.listing, cacheInit := true } := by
    unfold initialize_file_cache
    rw [hDir, hInit]
    rfl
  set dir := fm.output_dir with hdir
  set entry := cacheEntry dir (T ++ "." ++ E) with hentry
  have hmem_e : entry ∈ entriesOf dir fm.listing (lowerStr T) := by
    unfold entriesOf
    rw [List.mem_filterMap]
    exact ⟨T ++ "." ++ E, hMem, by rw [if_pos hkey]⟩
  have hall : ∀ x ∈ entriesOf dir fm.listing (lowerStr T), x = entry := by
    intro x hx
    unfold entriesOf at hx
    rw [List.mem_filterMap] at hx
    obtain ⟨f, hf, hfx⟩ := hx
    by_cases hk : cacheKey f = lowerStr T
    · rw [if_pos hk] at hfx
      have heq : f = T ++ "." ++ E := hUniq f hf hk
      have h1 : cacheEntry dir f = x := Option.some_inj.mp hfx
      rw [← h1, heq]
    · rw [if_neg hk] at hfx
      cases hfx
  have hne : entriesOf dir fm.listing (lowerStr T) ≠ [] :=
    List.ne_nil_of_mem hmem_e
  obtain ⟨rest, hrest⟩ := cons_of_ne_nil_all_eq hne hall
  have hlook : lookupGroup (buildCache dir fm.listing) (lowerStr (clean_filename T))
      = some (entry :: rest) := by
    rw [hClean, lookup_buildCache, if_neg hne, hrest]
  have hext : lowerStr entry.2.1 = "." ++ lowerStr E := by
    rw [hentry]
    unfold cacheEntry
    simp only
    rw [hsx]
    simp only
    rw [lowerStr_dot_append, lowerStr_dot_append, lowerStr_idem]
  constructor
  · unfold file_exists
    rw [hDir]
    simp only [Bool.not_true, Bool.false_eq_true, if_false]
    rw [hfm1]
    simp only
    rw [hlook]
    simp only [List.findSome?_cons]
    rw [if_pos hext]
    rfl
  · unfold file_exists
    rw [hDir]
    simp only [Bool.not_true, Bool.false_eq_true, if_false]
    rw [hfm1]
    simp only
    rw [hlook]
    rfl

/-- Witness for `C2_file_exists_finds_entry` at `T = "My Song"`, `E = "mp3"`
over a directory listing `["My Song.mp3", "other.mp3"]`. -/
theorem C2_file_exists_finds_entry_witness :
    (file_exists
      { output_dir := "downloads", temp_dir := "temp_downloads",
        listing := ["My Song.mp3", "other.mp3"], dirExists := true,
        cache := [], cacheInit := false }
      "My Song" (some "mp3")).1 = some "downloads/My Song.mp3" := by
  have h := C2_file_exists_finds_entry
    { output_dir := "downloads", temp_dir := "temp_downloads",
      listing := ["My Song.mp3", "other.mp3"], dirExists := true,
      cache := [], cacheInit := false }
    "My Song" "mp3" rfl rfl (by decide) (by decide) (by decide) (by decide)
    (by decide) (by decide)
  exact h.1.trans (by decide)

/-- C10: `move_file` with no explicit destination joins the output directory
with the source's basename, removes a pre-existing destination file before
the rename (overwrite semantics), invalidates the existence cache, and
returns the destination path.  The hypotheses say the source file exists and
is not already sitting at its own destination (there `os.rename` would fail
after the `os.remove`). -/
theorem C10_move_file_default (fm : FileManager) (fs : List String) (src : String)
    (h1 : src ∈ fs)
    (h2 : pyJoin fm.output_dir (basename src) ≠ src) :
    move_file fm fs src none =
      some (pyJoin fm.output_dir (basename src),
        ((if pyJoin fm.output_dir (basename src) ∈ fs then
            fs.erase (pyJoin fm.output_dir (basename src)) else fs).erase src)
          ++ [pyJoin fm.output_dir (basename src)],
        { fm with
            listing := (if basename src ∈ fm.listing then fm.listing
                        else fm.listing ++ [basename src]),
            cacheInit := false })
    ∧ ((move_file fm fs src none).map (fun r => r.2.2.cacheInit)) = some false := by
  have hsrc1 : src ∈ (if pyJoin fm.output_dir (basename src) ∈ fs then
      fs.erase (pyJoin fm.output_dir (basename src)) else fs) := by
    by_cases hd : pyJoin fm.output_dir (basename src) ∈ fs
    · rw [if_pos hd]
      exact (List.mem_erase_of_ne (Ne.symm h2)).mpr h1
    · rw [if_neg hd]
      exact h1
  have hmain : move_file fm fs src none =
      some (pyJoin fm.output_dir (basename src),
        ((if pyJoin fm.output_dir (basename src) ∈ fs then
            fs.erase (pyJoin fm.output_dir (basename src)) else fs).erase src)
          ++ [pyJoin fm.output_dir (basename src)],
        { fm with
            listing := (if basename src ∈ fm.listing then fm.listing
                        else fm.listing ++ [basename src]),
            cacheInit := false }) := by
    unfold move_file
    simp only
    rw [if_pos hsrc1]
    rfl
  exact ⟨hmain, by rw [hmain]; rfl⟩

/-- Witness for `C10_move_file_default`: moving `temp_downloads/song.mp3`
into `downloads` over a pre-existing `downloads/song.mp3`. -/
theorem C10_move_file_default_witness :
    move_file
      { output_dir := "downloads", temp_dir := "temp_downloads",
        listing := ["song.mp3"], dirExists := true, cache := [], cacheInit := true }
      ["temp_downloads/song.mp3", "downloads/song.mp3"] "temp_downloads/song.mp3" none =
      some ("downloads/song.mp3", ["downloads/song.mp3"],
        { output_dir := "downloads", temp_dir := "temp_downloads",
          listing := ["song.mp3"], dirExists := true, cache := [], cacheInit := false }) := by
  have h := C10_move_file_default
    { output_dir := "downloads", temp_dir := "temp_downloads",
      listing := ["song.mp3"], dirExists := true, cache := [], cacheInit := true }
    ["temp_downloads/song.mp3", "downloads/song.mp3"] "temp_downloads/song.mp3"
    (by decide) (by decide)
  exact h.1.trans (by decide)

/-! ## `ProgressTracker` (src/youtube_downloader/utils/progress.py)

The tracker is modelled after `create_progress()` has run: `tasks` is the
rich `Progress` task list in creation order (`task_ids`), carrying each
task's `visible` flag; `active_tasks` is the tracker's own list.  Progress
percentages and descriptions play no role in the claims and are omitted. -/

structure ProgressTracker where
  max_visible : Nat
  tasks : List (Nat × Bool)
  active_tasks : List Nat
  nextId : Nat
deriving DecidableEq

def initTracker (k : Nat) : ProgressTracker := ⟨k, [], [], 0⟩

/-- `ProgressTracker.add_task`: the new indicator is visible only when fewer
than `max_visible` tasks are in `active_tasks`, and is always appended to
`active_tasks`. -/
def add_task (s : ProgressTracker) : ProgressTracker × Nat :=
  let visible := decide (s.active_tasks.length < s.max_visible)
  let task_id := s.nextId
  ({ s with tasks := s.tasks ++ [(task_id, visible)],
            active_tasks := s.active_tasks ++ [task_id],
            nextId := task_id + 1 }, task_id)

def setTaskVisible (tasks : List (Nat × Bool)) (id : Nat) : List (Nat × Bool) :=
  tasks.map (fun t => if t.1 = id then (t.1, true) else t)

/-- `ProgressTracker.complete_task`: remove the handle from `active_tasks`,
then scan `task_ids` for the first task that is `not in self.active_tasks
and not ...visible`, make it visible and append it to `active_tasks`. -/
def complete_task (s : ProgressTracker) (task_id : Nat) : ProgressTracker :=
  if task_id ∈ s.active_tasks then
    let active1 := s.active_tasks.erase task_id
    match s.tasks.find? (fun t => !(active1.contains t.1) && !t.2) with
    | some t => { s with tasks := setTaskVisible s.tasks t.1,
                         active_tasks := active1 ++ [t.1] }
    | none => { s with active_tasks := active1 }
  else s

inductive TrackerOp where
  | add
  | complete (task_id : Nat)

def runOps : ProgressTracker → List TrackerOp → ProgressTracker
  | s, [] => s
  | s, .add :: ops => runOps (add_task s).1 ops
  | s, .complete i :: ops => runOps (complete_task s i) ops

/-- C1 evaluation at the failing input: with `max_visible = 2`, after three
`add_task` calls (task 2 created hidden) and `complete_task 0` on a visible
task, the promotion scan skips every still-active handle, so task 2 stays
hidden: only one registered-not-yet-completed indicator is visible although
`min(K, registered-not-completed) = 2`.  The last conjunct shows the other
reading of "marked visible" also fails: with `max_visible = 1`, completed
tasks keep their visible flag, so after add/complete/add two indicators are
marked visible at once. -/
theorem C1_promotion_never_fires :
    (let s := runOps (initTracker 2) [.add, .add, .add, .complete 0]
     ((2, false) ∈ s.tasks ∧ 2 ∈ s.active_tasks)
     ∧ (s.tasks.filter (fun t => t.2 && s.active_tasks.contains t.1)).length = 1
     ∧ min s.max_visible s.active_tasks.length = 2)
    ∧ (let s2 := runOps (initTracker 1) [.add, .complete 0, .add]
       (s2.tasks.filter (fun t => t.2)).length = 2 ∧ s2.max_visible = 1) := by
  decide

/-! ## `YouTubeDownloader` (src/youtube_downloader/core/downloader.py) -/

/-- The `DownloadResult` dataclass. -/
structure DownloadResult where
  url : String
  status : String := "pending"
  file_path : String := ""
  title : String := ""
  error : String := ""
deriving DecidableEq

/-- The CLI-restricted `--quality` choices (`QUALITY_SETTINGS` keys). -/
inductive Quality where
  | low
  | medium
  | high
deriving DecidableEq

/-- `QUALITY_SETTINGS[q]['audio']`. -/
def qualityAudio : Quality → String
  | .low => "128k"
  | .medium => "192k"
  | .high => "320k"

/-- `QUALITY_SETTINGS[q]['video']`. -/
def qualityVideo : Quality → String
  | .low => "360p"
  | .medium => "480p"
  | .high => "720p"

/-- Characters of the regex class `[a-zA-Z0-9_-]`. -/
def isIdChar (c : Char) : Bool := c.isAlpha || c.isDigit || c = '_' || c = '-'

/-- Drop a literal leading string, if present. -/
def dropLit (lit s : String) : Option String :=
  if lit.data.isPrefixOf s.data then some ⟨s.data.drop lit.data.length⟩ else none

/-- Strip the optional `(https?://)?` of the URL regexes. -/
def afterScheme (s : String) : String :=
  match dropLit "https://" s with
  | some r => r
  | none =>
    match dropLit "http://" s with
    | some r => r
    | none => s

/-- Strip the optional `(www\.)?` of the URL regexes. -/
def afterWWW (s : String) : String :=
  match dropLit "www." s with
  | some r => r
  | none => s

/-- `re.match(YOUTUBE_VIDEO_REGEX, url)`: an optional scheme and `www.`,
then `youtube.com/watch?v=` or `youtu.be/`, then at least 11 characters of
`[a-zA-Z0-9_-]` (the two literal alternatives share no prefix, so the
deterministic reading matches the backtracking regex). -/
def matchesVideoUrl (url : String) : Bool :=
  let s := afterWWW (afterScheme url)
  match dropLit "youtube.com/watch?v=" s with
  | some rest => 11 ≤ (rest.data.takeWhile isIdChar).length
  | none =>
    match dropLit "youtu.be/" s with
    | some rest => 11 ≤ (rest.data.takeWhile isIdChar).length
    | none => false

/-- `re.match(YOUTUBE_PLAYLIST_REGEX, url)`. -/
def matchesPlaylistUrl (url : String) : Bool :=
  let s := afterWWW (afterScheme url)
  match dropLit "youtube.com/playlist?list=" s with
  | some rest => 1 ≤ (rest.data.takeWhile isIdChar).length
  | none => false

inductive UrlKind where
  | video
  | playlist
deriving DecidableEq

/-- `YouTubeDownloader.validate_url`. -/
def validate_url (url : String) : Option UrlKind :=
  if matchesVideoUrl url then some .video
  else if matchesPlaylistUrl url then some .playlist
  else none

/-- The `info` dict returned by `get_video_info`; only the `title` key is
consumed (`info.get('title', 'Unknown Title')`). -/
structure VideoInfo where
  title? : Option String
deriving DecidableEq

/-- Outcome of the `ydl.extract_info(url, download=True)` call inside
`download_video`: either it raises (message of the exception), or it
downloads, yielding the title, the prepared filename, and whether the
expected file / the alternative `temp_dir/title.format` file exists
afterwards.  A missing `title` key would raise and is covered by `fail`. -/
inductive DlEvent where
  | fail (msg : String)
  | ok (title : String) (prepared : String) (mainExists : Bool) (altExists : Bool)
deriving DecidableEq

/-- The external collaborators (yt-dlp) as oracles: `get_video_info`,
`get_playlist_videos` (empty on error, as in the source), and the actual
download performed by `download_video`. -/
structure Env where
  videoInfo : String → Option VideoInfo
  playlistVideos : String → List String
  dl : String → DlEvent

/-- `info.get('title', 'Unknown Title')`. -/
def titleOf (info : VideoInfo) : String := info.title?.getD "Unknown Title"

/-- The effect of `FileManager.move_file(path)` on the manager when invoked
from `download_video` (the staged file's existence is already granted by
the `DlEvent` oracle): the destination path is output dir + basename, the
listing gains the basename, and the cache is invalidated. -/
def moveIntoOutput (fm : FileManager) (src : String) : String × FileManager :=
  (pyJoin fm.output_dir (basename src),
   invalidate_cache { fm with listing :=
      (if basename src ∈ fm.listing then fm.listing
       else fm.listing ++ [basename src]) })

/-- The `DownloadResult` produced by `YouTubeDownloader.download_video`,
as a function of the oracle event and the directory names. -/
def dlResult (env : Env) (outDir tempDir : String) (output_format : String)
    (q : Quality) (is_video : Bool) (url : String) : DownloadResult :=
  match env.dl url with
  | .fail msg => { url := url, status := "error", error := msg }
  | .ok title prepared mainExists altExists =>
    let file_path :=
      if is_video then prepared else (splitext prepared).1 ++ "." ++ output_format
    if mainExists then
      { url := url, status := "success",
        file_path := pyJoin outDir (basename file_path), title := title }
    else
      let temp_path := tempDir ++ "/" ++ title ++ "." ++ output_format
      if altExists then
        { url := url, status := "success",
          file_path := pyJoin outDir (basename temp_path), title := title }
      else
        { url := url, status := "error",
          error := "Downloaded file not found: " ++ file_path }

/-- `YouTubeDownloader.download_video`: the produced result plus the
`FileManager` state change made by the `move_file` call (note `q` only
selects bitrates/resolutions passed to yt-dlp and does not influence the
modelled state). -/
def download_video (env : Env) (fm : FileManager) (output_format : String)
    (q : Quality) (is_video : Bool) (url : String) : DownloadResult × FileManager :=
  match env.dl url with
  | .fail _ => (dlResult env fm.output_dir fm.temp_dir output_format q is_video url, fm)
  | .ok title prepared mainExists altExists =>
    let file_path :=
      if is_video then prepared else (splitext prepared).1 ++ "." ++ output_format
    if mainExists then
      (dlResult env fm.output_dir fm.temp_dir output_format q is_video url,
       (moveIntoOutput fm file_path).2)
    else
      let temp_path := fm.temp_dir ++ "/" ++ title ++ "." ++ output_format
      if altExists then
        (dlResult env fm.output_dir fm.temp_dir output_format q is_video url,
         (moveIntoOutput fm temp_path).2)
      else
        (dlResult env fm.output_dir fm.temp_dir output_format q is_video url, fm)

/-- Results plus state of `_process_single_video`, with two observability
flags: whether `download_video` ran and how many progress tasks were
created. -/
structure SingleRun where
  results : List DownloadResult
  fm : FileManager
  downloadInvoked : Bool
  tasksCreated : Nat
deriving DecidableEq

/-- `YouTubeDownloader._process_single_video`. -/
def process_single_video (env : Env) (fm : FileManager) (output_format : String)
    (q : Quality) (is_video : Bool) (force : Bool) (hasTracker : Bool)
    (url : String) : SingleRun :=
  match env.videoInfo url with
  | none =>
    ⟨[{ url := url, status := "error", error := "Could not retrieve video info" }],
     fm, false, 0⟩
  | some info =>
    let title := titleOf info
    let extension := if is_video then "mp4" else output_format
    let q1 := file_exists fm title (some extension)
    if truthy q1.1 && !force then
      ⟨[{ url := url, status := "skipped", file_path := q1.1.getD "", title := title }],
       q1.2, false, 0⟩
    else
      let d := download_video env q1.2 output_format q is_video url
      ⟨[d.1], d.2, true, if hasTracker then 1 else 0⟩

/-- The existence-check pass of `_process_playlist` (`force=false`): walk
the members, emit a `skipped` result for each member whose expected file
already exists, and collect the rest (metadata included; a member whose
metadata fetch fails is collected with `none`) as `videos_to_download`. -/
def partitionGo (env : Env) (output_format : String) (is_video : Bool) :
    FileManager → List String →
      List DownloadResult × List (String × Option VideoInfo) × FileManager
  | fm, [] => ([], [], fm)
  | fm, u :: rest =>
    match env.videoInfo u with
    | some info =>
      let title := titleOf info
      let extension := if is_video then "mp4" else output_format
      let q1 := file_exists fm title (some extension)
      if truthy q1.1 then
        let r := partitionGo env output_format is_video q1.2 rest
        ({ url := u, status := "skipped", file_path := q1.1.getD "", title := title }
           :: r.1, r.2.1, r.2.2)
      else
        let r := partitionGo env output_format is_video q1.2 rest
        (r.1, (u, some info) :: r.2.1, r.2.2)
    | none =>
      let r := partitionGo env output_format is_video fm rest
      (r.1, (u, none) :: r.2.1, r.2.2)

/-- The download phase of `_process_playlist`, executed over the jobs in a
given serialization order (`as_completed` completion order for a pool,
submission order when sequential). -/
def runSeq (env : Env) (output_format : String) (q : Quality) (is_video : Bool) :
    FileManager → List (String × Option VideoInfo) → List DownloadResult × FileManager
  | fm, [] => ([], fm)
  | fm, j :: rest =>
    let s := download_video env fm output_format q is_video j.1
    let r := runSeq env output_format q is_video s.2 rest
    (s.1 :: r.1, r.2)

/-- `YouTubeDownloader._process_playlist`.  `jobOrder` is the completion
order of the pooled download jobs (used only when `parallel > 0`); theorems
constrain it to a permutation of the scheduled job list. -/
def process_playlist (env : Env) (fm : FileManager) (url : String)
    (output_format : String) (q : Quality) (is_video : Bool) (force : Bool)
    (parallel : Nat) (jobOrder : List (String × Option VideoInfo)) :
    List DownloadResult × FileManager :=
  let video_urls := env.playlistVideos url
  if video_urls.isEmpty then ([], fm)
  else if !force then
    let part := partitionGo env output_format is_video fm video_urls
    if part.2.1.isEmpty then (part.1, part.2.2)
    else
      let order := if parallel = 0 then part.2.1 else jobOrder
      let dl := runSeq env output_format q is_video part.2.2 order
      (part.1 ++ dl.1, dl.2)
  else
    let video_urls_with_info := video_urls.map (fun u => (u, env.videoInfo u))
    if video_urls_with_info.isEmpty then ([], fm)
    else
      let order := if parallel = 0 then video_urls_with_info else jobOrder
      let dl := runSeq env output_format q is_video fm order
      (dl.1, dl.2)

/-- `YouTubeDownloader.process_url`. -/
def process_url (env : Env) (fm : FileManager) (url : String)
    (output_format : String) (q : Quality) (is_video : Bool) (force : Bool)
    (parallel : Nat) (hasTracker : Bool)
    (jobOrder : List (String × Option VideoInfo)) :
    List DownloadResult × FileManager :=
  match validate_url url with
  | some .video =>
    let s := process_single_video env fm output_format q is_video force hasTracker url
    (s.results, s.fm)
  | some .playlist =>
    process_playlist env fm url output_format q is_video force parallel jobOrder
  | none => ([], fm)

/-! ## `AudioConverter` (src/youtube_downloader/core/converter.py) -/

/-- Add a path to a file set if absent. -/
def fsInsert (l : List String) (x : String) : List String :=
  if x ∈ l then l else l ++ [x]

/-- The ffmpeg command line built by `convert_file`. -/
def ffmpegCmd (input_file output_file output_format : String) (q : Quality) :
    List String :=
  ["ffmpeg", "-i", input_file, "-b:a", qualityAudio q, "-f", output_format,
   "-y", output_file]

/-- `ext[1:] if ext else ""` over `base, ext = os.path.splitext(input_file)`. -/
def currentExt (input_file : String) : String :=
  if (splitext input_file).2 ≠ "" then ⟨(splitext input_file).2.data.drop 1⟩ else ""

/-- The conversion target `f"{base}.{output_format}"`. -/
def outputFileOf (input_file output_format : String) : String :=
  (splitext input_file).1 ++ "." ++ output_format

/-- `AudioConverter.convert_file`: takes the outcome, the target format, the
file set on disk, and the ffmpeg exit status `rc` (oracle for the
subprocess; its partial output on failure is not tracked).  Returns the
updated outcome, the updated file set, and whether the subprocess ran. -/
def convert_file (result : DownloadResult) (output_format : String) (q : Quality)
    (fs : List String) (rc : Int) : DownloadResult × List String × Bool :=
  if result.status ≠ "success" then (result, fs, false)
  else
    let input_file := result.file_path
    if input_file = "" ∨ input_file ∉ fs then
      ({ result with status := "error", error := "Input file does not exist" },
       fs, false)
    else if lowerStr (currentExt input_file) = lowerStr output_format then
      (result, fs, false)
    else
      let output_file := outputFileOf input_file output_format
      if rc ≠ 0 then
        let msg := "Conversion error: FFmpeg conversion failed with return code "
          ++ toString rc
        ({ result with status := "error", error := msg }, fs, true)
      else
        ({ result with file_path := output_file },
         fsInsert (fs.erase input_file) output_file, true)

/-- The sequential conversion loop of `batch_convert`, threading the file
set; `rcOf` gives each job's ffmpeg exit status. -/
def convertSeq (output_format : String) (q : Quality) (rcOf : DownloadResult → Int) :
    List String → List DownloadResult → List DownloadResult × List String
  | fs, [] => ([], fs)
  | fs, r :: rest =>
    let c := convert_file r output_format q fs (rcOf r)
    let t := convertSeq output_format q rcOf c.2.1 rest
    (c.1 :: t.1, t.2)

/-- `AudioConverter.batch_convert`.  `convOrder` is the completion order of
the pooled conversion jobs (used only when `parallel > 0`); theorems
constrain it to a permutation of the successful candidates. -/
def batch_convert (results : List DownloadResult) (output_format : String)
    (q : Quality) (fs : List String) (parallel : Nat)
    (rcOf : DownloadResult → Int) (convOrder : List DownloadResult) :
    List DownloadResult × List String :=
  let successful := results.filter (fun r => decide (r.status = "success"))
  let others := results.filter (fun r => decide (r.status ≠ "success"))
  if successful.isEmpty then (results, fs)
  else
    let order := if parallel = 0 then successful else convOrder
    let conv := convertSeq output_format q rcOf fs order
    (conv.1 ++ others, conv.2)

/-! ### `convert_file` branch lemmas -/

theorem convert_file_not_success (r : DownloadResult) (fmt : String) (q : Quality)
    (fs : List String) (rc : Int) (h : r.status ≠ "success") :
    convert_file r fmt q fs rc = (r, fs, false) := by
  unfold convert_file
  rw [if_pos h]

theorem convert_file_missing (r : DownloadResult) (fmt : String) (q : Quality)
    (fs : List String) (rc : Int) (h : r.status = "success")
    (hm : r.file_path = "" ∨ r.file_path ∉ fs) :
    convert_file r fmt q fs rc =
      ({ r with status := "error", error := "Input file does not exist" }, fs, false) := by
  unfold convert_file
  rw [if_neg (not_not_intro h), if_pos hm]

theorem convert_file_extmatch (r : DownloadResult) (fmt : String) (q : Quality)
    (fs : List String) (rc : Int) (h : r.status = "success")
    (h2 : r.file_path ≠ "") (h3 : r.file_path ∈ fs)
    (h4 : lowerStr (currentExt r.file_path) = lowerStr fmt) :
    convert_file r fmt q fs rc = (r, fs, false) := by
  unfold convert_file
  rw [if_neg (not_not_intro h), if_neg (by rintro (hc | hc); exacts [h2 hc, hc h3]),
    if_pos h4]

theorem convert_file_rc_nonzero (r : DownloadResult) (fmt : String) (q : Quality)
    (fs : List String) (rc : Int) (h : r.status = "success")
    (h2 : r.file_path ≠ "") (h3 : r.file_path ∈ fs)
    (h4 : lowerStr (currentExt r.file_path) ≠ lowerStr fmt) (h5 : rc ≠ 0) :
    convert_file r fmt q fs rc =
      ({ r with
          status := "error"
          error := ("Conversion error: FFmpeg conversion failed with return code "
            ++ toString rc) }, fs, true) := by
  unfold convert_file
  rw [if_neg (not_not_intro h), if_neg (by rintro (hc | hc); exacts [h2 hc, hc h3]),
    if_neg h4, if_pos h5]

theorem convert_file_rc_zero (r : DownloadResult) (fmt : String) (q : Quality)
    (fs : List String) (h : r.status = "success")
    (h2 : r.file_path ≠ "") (h3 : r.file_path ∈ fs)
    (h4 : lowerStr (currentExt r.file_path) ≠ lowerStr fmt) :
    convert_file r fmt q fs 0 =
      ({ r with file_path := outputFileOf r.file_path fmt },
       fsInsert (fs.erase r.file_path) (outputFileOf r.file_path fmt), true) := by
  unfold convert_file
  rw [if_neg (not_not_intro h), if_neg (by rintro (hc | hc); exacts [h2 hc, hc h3]),
    if_neg h4, if_neg (by exact not_not_intro rfl)]

/-- C9: `convert_file` returns non-`success` outcomes completely unchanged
(no file-set change, no subprocess), and flips a `success` outcome whose
path is empty or absent from disk to `error` with the exact text
"Input file does not exist", again without running the subprocess. -/
theorem C9_convert_file_guards (r : DownloadResult) (output_format : String)
    (q : Quality) (fs : List String) (rc : Int) :
    (r.status ≠ "success" → convert_file r output_format q fs rc = (r, fs, false))
    ∧ (r.status = "success" → (r.file_path = "" ∨ r.file_path ∉ fs) →
        convert_file r output_format q fs rc =
          ({ r with status := "error", error := "Input file does not exist" },
           fs, false)) :=
  ⟨fun h => convert_file_not_success r output_format q fs rc h,
   fun h hm => convert_file_missing r output_format q fs rc h hm⟩

/-- Witness for `C9_convert_file_guards`: a `skipped` outcome passes through
untouched; a `success` outcome with an empty path becomes the exact error. -/
theorem C9_convert_file_guards_witness :
    convert_file ⟨"u", "skipped", "downloads/a.mp4", "t", ""⟩ "mp3" .medium
        ["downloads/a.mp4"] 0
      = (⟨"u", "skipped", "downloads/a.mp4", "t", ""⟩, ["downloads/a.mp4"], false)
    ∧ convert_file ⟨"u", "success", "", "t", ""⟩ "mp3" .medium [] 0
      = (⟨"u", "error", "", "t", "Input file does not exist"⟩, [], false) := by
  constructor
  · exact ((C9_convert_file_guards ⟨"u", "skipped", "downloads/a.mp4", "t", ""⟩
      "mp3" .medium ["downloads/a.mp4"] 0).1 (by decide)).trans (by decide)
  · exact ((C9_convert_file_guards ⟨"u", "success", "", "t", ""⟩
      "mp3" .medium [] 0).2 rfl (Or.inl rfl)).trans (by decide)

/-- C4: when the transcoder exits non-zero, `convert_file` flips the outcome
to `error` with a message carrying the exit code, leaves `file_path`
untouched, and does not delete the original file; the source file is
removed from the file set only on the zero-exit path. -/
theorem C4_convert_failure_keeps_source (r : DownloadResult) (output_format : String)
    (q : Quality) (fs : List String) (rc : Int)
    (h1 : r.status = "success") (h2 : r.file_path ≠ "") (h3 : r.file_path ∈ fs)
    (h4 : lowerStr (currentExt r.file_path) ≠ lowerStr output_format) :
    (rc ≠ 0 →
      convert_file r output_format q fs rc =
        ({ r with
            status := "error"
            error := ("Conversion error: FFmpeg conversion failed with return code "
              ++ toString rc) }, fs, true)
      ∧ (∃ pre post : String,
          (convert_file r output_format q fs rc).1.error = pre ++ toString rc ++ post)
      ∧ (convert_file r output_format q fs rc).1.file_path = r.file_path
      ∧ r.file_path ∈ (convert_file r output_format q fs rc).2.1)
    ∧ convert_file r output_format q fs 0 =
        ({ r with file_path := outputFileOf r.file_path output_format },
         fsInsert (fs.erase r.file_path) (outputFileOf r.file_path output_format),
         true) := by
  constructor
  · intro h5
    have heq := convert_file_rc_nonzero r output_format q fs rc h1 h2 h3 h4 h5
    refine ⟨heq, ?_, ?_, ?_⟩
    · exact ⟨"Conversion error: FFmpeg conversion failed with return code ", "",
        by rw [heq, String.append_empty]⟩
    · rw [heq]
    · rw [heq]; exact h3
  · exact convert_file_rc_zero r output_format q fs h1 h2 h3 h4

/-- Witness for `C4_convert_failure_keeps_source` at exit code 1 over
`downloads/a.webm` → mp3. -/
theorem C4_convert_failure_keeps_source_witness :
    convert_file ⟨"u", "success", "downloads/a.webm", "t", ""⟩ "mp3" .medium
        ["downloads/a.webm"] 1
      = (⟨"u", "error", "downloads/a.webm", "t",
          "Conversion error: FFmpeg conversion failed with return code 1"⟩,
         ["downloads/a.webm"], true)
    ∧ convert_file ⟨"u", "success", "downloads/a.webm", "t", ""⟩ "mp3" .medium
        ["downloads/a.webm"] 0
      = (⟨"u", "success", "downloads/a.mp3", "t", ""⟩, ["downloads/a.mp3"], true) := by
  have h := C4_convert_failure_keeps_source
    ⟨"u", "success", "downloads/a.webm", "t", ""⟩ "mp3" .medium
    ["downloads/a.webm"] 1 rfl (by decide) (by decide) (by decide)
  constructor
  · exact ((h.1 (by decide)).1).trans (by decide)
  · exact h.2.trans (by decide)

theorem concat_dot_data (B F : String) :
    (B ++ "." ++ F).data = B.data ++ '.' :: F.data := by
  rw [String.data_append, String.data_append]
  show B.data ++ ['.'] ++ F.data = _
  simp

theorem concat_dot_ne_empty (B F : String) : (B ++ "." ++ F) ≠ "" := by
  intro he
  have hdata := congrArg String.data he
  rw [concat_dot_data] at hdata
  have hlen := congrArg List.length hdata
  simp at hlen

theorem mem_fsInsert_self (l : List String) (x : String) : x ∈ fsInsert l x := by
  unfold fsInsert
  by_cases h : x ∈ l
  · rw [if_pos h]; exact h
  · rw [if_neg h]
    exact List.mem_append.mpr (Or.inr (List.mem_singleton.mpr rfl))

/-- The extension of `f"{base}.{output_format}"` is the target format again
(for a dot- and slash-free format and a stem whose basename is not all
dots). -/
theorem currentExt_outputFileOf (input fmt : String) (hf2 : '.' ∉ fmt.data)
    (hf3 : '/' ∉ fmt.data)
    (hstem : ((splitPath (splitext input).1).2).any (fun c => c ≠ '.') = true) :
    currentExt (outputFileOf input fmt) = fmt := by
  unfold currentExt outputFileOf
  have hsx := splitext_concat (splitext input).1 fmt hf3 hf2 hstem
  rw [hsx]
  simp only
  have hne : ("." ++ fmt : String) ≠ "" := by
    intro he
    have hdata := congrArg String.data he
    rw [String.data_append] at hdata
    exact List.noConfusion hdata
  rw [if_pos hne]
  have hdd : ("." ++ fmt : String).data = '.' :: fmt.data := by
    rw [String.data_append]
    rfl
  rw [hdd]
  rfl

/-- C6: a `success` outcome whose file's extension already equals the target
format (case-insensitively) passes through `convert_file` unchanged with no
subprocess run; consequently re-running `convert_file` on its own successful
output (whatever branch produced it) is the identity.  The extra hypotheses
pin down the shapes for which `os.path.splitext` recognises the produced
`base.format` extension (format without dots/slashes, stem not all dots). -/
theorem C6_extension_short_circuit (r : DownloadResult) (output_format : String)
    (q : Quality) (fs : List String) (rc rc₂ : Int)
    (h1 : r.status = "success") (h2 : r.file_path ≠ "") (h3 : r.file_path ∈ fs)
    (hf2 : '.' ∉ output_format.data) (hf3 : '/' ∉ output_format.data)
    (hstem : ((splitPath (splitext r.file_path).1).2).any (fun c => c ≠ '.') = true) :
    (lowerStr (currentExt r.file_path) = lowerStr output_format →
      convert_file r output_format q fs rc = (r, fs, false))
    ∧ convert_file (convert_file r output_format q fs 0).1 output_format q
        (convert_file r output_format q fs 0).2.1 rc₂
      = ((convert_file r output_format q fs 0).1,
         (convert_file r output_format q fs 0).2.1, false) := by
  constructor
  · intro hm
    exact convert_file_extmatch r output_format q fs rc h1 h2 h3 hm
  · by_cases hm : lowerStr (currentExt r.file_path) = lowerStr output_format
    · rw [convert_file_extmatch r output_format q fs 0 h1 h2 h3 hm]
      exact convert_file_extmatch r output_format q fs rc₂ h1 h2 h3 hm
    · rw [convert_file_rc_zero r output_format q fs h1 h2 h3 hm]
      simp only
      refine convert_file_extmatch _ output_format q _ rc₂ h1 ?_ ?_ ?_
      · exact concat_dot_ne_empty _ _
      · exact mem_fsInsert_self _ _
      · rw [show ({ r with file_path := outputFileOf r.file_path output_format }
            : DownloadResult).file_path = outputFileOf r.file_path output_format from rfl]
        rw [currentExt_outputFileOf r.file_path output_format hf2 hf3 hstem]

/-- Witness for `C6_extension_short_circuit`: an outcome already holding an
`.mp3` (even upper-cased `MP3`) passes through, and re-converting the output
of a real conversion is a no-op. -/
theorem C6_extension_short_circuit_witness :
    convert_file ⟨"u", "success", "downloads/a.MP3", "t", ""⟩ "mp3" .medium
        ["downloads/a.MP3"] 7
      = (⟨"u", "success", "downloads/a.MP3", "t", ""⟩, ["downloads/a.MP3"], false)
    ∧ convert_file
        (convert_file ⟨"u", "success", "downloads/b.webm", "t", ""⟩ "mp3" .medium
          ["downloads/b.webm"] 0).1 "mp3" .medium
        (convert_file ⟨"u", "success", "downloads/b.webm", "t", ""⟩ "mp3" .medium
          ["downloads/b.webm"] 0).2.1 5
      = ((convert_file ⟨"u", "success", "downloads/b.webm", "t", ""⟩ "mp3" .medium
          ["downloads/b.webm"] 0).1,
         (convert_file ⟨"u", "success", "downloads/b.webm", "t", ""⟩ "mp3" .medium
          ["downloads/b.webm"] 0).2.1, false) := by
  constructor
  · exact (C6_extension_short_circuit ⟨"u", "success", "downloads/a.MP3", "t", ""⟩
      "mp3" .medium ["downloads/a.MP3"] 7 7 rfl (by decide) (by decide) (by decide)
      (by decide) (by decide)).1 (by decide)
  · exact (C6_extension_short_circuit ⟨"u", "success", "downloads/b.webm", "t", ""⟩
      "mp3" .medium ["downloads/b.webm"] 0 5 rfl (by decide) (by decide) (by decide)
      (by decide) (by decide)).2

/-- C5: with `force = false`, when the Existence Index finds a (truthy) file
for the resolved title and expected extension, `_process_single_video`
returns exactly one `skipped` outcome carrying that path and title, runs no
download, and creates no progress task. -/
theorem C5_single_video_skips_existing (env : Env) (fm : FileManager)
    (output_format : String) (q : Quality) (is_video : Bool) (hasTracker : Bool)
    (url : String) (info : VideoInfo) (p : String)
    (hInfo : env.videoInfo url = some info)
    (hEx : (file_exists fm (titleOf info)
        (some (if is_video then "mp4" else output_format))).1 = some p)
    (hp : p ≠ "") :
    process_single_video env fm output_format q is_video false hasTracker url =
      ⟨[{ url := url, status := "skipped", file_path := p, title := titleOf info }],
       (file_exists fm (titleOf info)
         (some (if is_video then "mp4" else output_format))).2,
       false, 0⟩ := by
  unfold process_single_video
  rw [hInfo]
  simp only [hEx]
  have ht : ((truthy (some p) && !false) = true) := by simp [truthy, hp]
  rw [if_pos ht]
  simp

def skipDemoEnv : Env :=
  { videoInfo := fun _ => some ⟨some "My Song"⟩
    playlistVideos := fun _ => []
    dl := fun _ => .fail "boom" }

def demoFM : FileManager :=
  { output_dir := "downloads", temp_dir := "temp_downloads",
    listing := ["My Song.mp3"], dirExists := true, cache := [], cacheInit := false }

/-- Witness for `C5_single_video_skips_existing`: the title resolves to
`My Song`, `downloads` already holds `My Song.mp3`, a tracker is present,
and yet no task is created and no download runs. -/
theorem C5_single_video_skips_existing_witness :
    (process_single_video skipDemoEnv demoFM "mp3" .medium false false true "u").results
      = [⟨"u", "skipped", "downloads/My Song.mp3", "My Song", ""⟩]
    ∧ (process_single_video skipDemoEnv demoFM "mp3" .medium false false true
        "u").downloadInvoked = false
    ∧ (process_single_video skipDemoEnv demoFM "mp3" .medium false false true
        "u").tasksCreated = 0 := by
  have h := C5_single_video_skips_existing skipDemoEnv demoFM "mp3" .medium false true
    "u" ⟨some "My Song"⟩ "downloads/My Song.mp3" (by decide) (by decide) (by decide)
  refine ⟨?_, ?_, ?_⟩ <;> (rw [h] <;> rfl)

/-! ### Pure characterization of the playlist existence-check pass

`file_exists` mutates the manager only by (idempotently) building the cache,
so the partition loop equals a pure filter/filterMap over the member list
evaluated against the initial manager state. -/

/-- Does the existence pass skip member `u`? -/
def memberSkipped (env : Env) (fmt : String) (iv : Bool) (fm : FileManager)
    (u : String) : Bool :=
  match env.videoInfo u with
  | some info =>
    truthy (file_exists fm (titleOf info) (some (if iv then "mp4" else fmt))).1
  | none => false

/-- The `videos_to_download` entry contributed by member `u`, if any. -/
def memberJob (env : Env) (fmt : String) (iv : Bool) (fm : FileManager)
    (u : String) : Option (String × Option VideoInfo) :=
  match env.videoInfo u with
  | some info =>
    if truthy (file_exists fm (titleOf info) (some (if iv then "mp4" else fmt))).1
    then none else some (u, some info)
  | none => some (u, none)

/-- The `skipped` outcome emitted for member `u` (meaningful when
`memberSkipped` holds). -/
def skipResult (env : Env) (fmt : String) (iv : Bool) (fm : FileManager)
    (u : String) : DownloadResult :=
  match env.videoInfo u with
  | some info =>
    { url := u, status := "skipped",
      file_path := (file_exists fm (titleOf info)
        (some (if iv then "mp4" else fmt))).1.getD "",
      title := titleOf info }
  | none => { url := u, status := "error" }

theorem memberSkipped_fmQ (env : Env) (fmt : String) (iv : Bool) (fm : FileManager)
    (u : String) : memberSkipped env fmt iv (fmQ fm) u = memberSkipped env fmt iv fm u := by
  unfold memberSkipped
  cases env.videoInfo u with
  | none => rfl
  | some info => simp only [file_exists_fst_fmQ]

theorem memberJob_fmQ (env : Env) (fmt : String) (iv : Bool) (fm : FileManager)
    (u : String) : memberJob env fmt iv (fmQ fm) u = memberJob env fmt iv fm u := by
  unfold memberJob
  cases env.videoInfo u with
  | none => rfl
  | some info => simp only [file_exists_fst_fmQ]

theorem skipResult_fmQ (env : Env) (fmt : String) (iv : Bool) (fm : FileManager)
    (u : String) : skipResult env fmt iv (fmQ fm) u = skipResult env fmt iv fm u := by
  unfold skipResult
  cases env.videoInfo u with
  | none => rfl
  | some info => simp only [file_exists_fst_fmQ]

theorem filterMap_congr_fn {α β : Type} {f g : α → Option β} (l : List α)
    (h : ∀ a ∈ l, f a = g a) : l.filterMap f = l.filterMap g := by
  induction l with
  | nil => rfl
  | cons a rest ih =>
    rw [List.filterMap_cons, List.filterMap_cons, h a (List.mem_cons_self a rest),
      ih (fun x hx => h x (List.mem_cons_of_mem _ hx))]

theorem partitionGo_fst (env : Env) (fmt : String) (iv : Bool) :
    ∀ (fm : FileManager) (l : List String),
      (partitionGo env fmt iv fm l).1 =
        (l.filter (memberSkipped env fmt iv fm)).map (skipResult env fmt iv fm) := by
  intro fm l
  induction l generalizing fm with
  | nil => rfl
  | cons u rest ih =>
    unfold partitionGo
    cases hinfo : env.videoInfo u with
    | none =>
      simp only []
      have hms : memberSkipped env fmt iv fm u = false := by
        unfold memberSkipped
        rw [hinfo]
      rw [List.filter_cons, hms]
      simp only [Bool.false_eq_true, if_false]
      exact ih fm
    | some info =>
      simp only []
      have hsnd := file_exists_snd fm (titleOf info)
        (some (if iv then "mp4" else fmt))
      have hcongr : (partitionGo env fmt iv (fmQ fm) rest).1 =
          (rest.filter (memberSkipped env fmt iv fm)).map
            (skipResult env fmt iv fm) := by
        rw [ih (fmQ fm),
          List.filter_congr (fun x _ => memberSkipped_fmQ env fmt iv fm x)]
        exact List.map_congr_left (fun x _ => skipResult_fmQ env fmt iv fm x)
      by_cases htr : truthy (file_exists fm (titleOf info)
          (some (if iv then "mp4" else fmt))).1 = true
      · rw [if_pos htr]
        have hms : memberSkipped env fmt iv fm u = true := by
          unfold memberSkipped
          rw [hinfo]
          exact htr
        rw [List.filter_cons, hms]
        simp only [eq_self_iff_true, if_true]
        rw [List.map_cons]
        refine congrArg₂ List.cons ?_ ?_
        · unfold skipResult
          rw [hinfo]
        · show (partitionGo env fmt iv (file_exists fm (titleOf info)
            (some (if iv then "mp4" else fmt))).2 rest).1 = _
          rw [hsnd]
          exact hcongr
      · rw [if_neg htr]
        have hms : memberSkipped env fmt iv fm u = false := by
          unfold memberSkipped
          rw [hinfo]
          exact Bool.not_eq_true _ ▸ (by simpa using htr)
        rw [List.filter_cons, hms]
        simp only [Bool.false_eq_true, if_false]
        show (partitionGo env fmt iv (file_exists fm (titleOf info)
          (some (if iv then "mp4" else fmt))).2 rest).1 = _
        rw [hsnd]
        exact hcongr

theorem partitionGo_snd (env : Env) (fmt : String) (iv : Bool) :
    ∀ (fm : FileManager) (l : List String),
      (partitionGo env fmt iv fm l).2.1 = l.filterMap (memberJob env fmt iv fm) := by
  intro fm l
  induction l generalizing fm with
  | nil => rfl
  | cons u rest ih =>
    unfold partitionGo
    cases hinfo : env.videoInfo u with
    | none =>
      simp only []
      have hmj : memberJob env fmt iv fm u = some (u, none) := by
        unfold memberJob
        rw [hinfo]
      rw [List.filterMap_cons, hmj]
      rw [ih fm]
    | some info =>
      simp only []
      have hsnd := file_exists_snd fm (titleOf info)
        (some (if iv then "mp4" else fmt))
      have hcongr : (partitionGo env fmt iv (fmQ fm) rest).2.1 =
          rest.filterMap (memberJob env fmt iv fm) := by
        rw [ih (fmQ fm)]
        exact filterMap_congr_fn rest (fun x _ => memberJob_fmQ env fmt iv fm x)
      by_cases htr : truthy (file_exists fm (titleOf info)
          (some (if iv then "mp4" else fmt))).1 = true
      · rw [if_pos htr]
        have hmj : memberJob env fmt iv fm u = none := by
          unfold memberJob
          rw [hinfo]
          simp only []
          rw [if_pos htr]
        rw [List.filterMap_cons, hmj]
        show (partitionGo env fmt iv (file_exists fm (titleOf info)
          (some (if iv then "mp4" else fmt))).2 rest).2.1 = _
        rw [hsnd]
        exact hcongr
      · rw [if_neg htr]
        have hmj : memberJob env fmt iv fm u = some (u, some info) := by
          unfold memberJob
          rw [hinfo]
          simp only []
          rw [if_neg htr]
        rw [List.filterMap_cons, hmj]
        refine congrArg₂ List.cons rfl ?_
        show (partitionGo env fmt iv (file_exists fm (titleOf info)
          (some (if iv then "mp4" else fmt))).2 rest).2.1 = _
        rw [hsnd]
        exact hcongr

theorem fmQ_dirs (fm : FileManager) :
    (fmQ fm).output_dir = fm.output_dir ∧ (fmQ fm).temp_dir = fm.temp_dir := by
  unfold fmQ
  by_cases h : fm.dirExists
  · rw [if_pos h]
    exact ⟨(initialize_file_cache_fields fm).1, (initialize_file_cache_fields fm).2.1⟩
  · rw [if_neg h]
    exact ⟨rfl, rfl⟩

theorem partitionGo_dirs (env : Env) (fmt : String) (iv : Bool) :
    ∀ (fm : FileManager) (l : List String),
      (partitionGo env fmt iv fm l).2.2.output_dir = fm.output_dir
      ∧ (partitionGo env fmt iv fm l).2.2.temp_dir = fm.temp_dir := by
  intro fm l
  induction l generalizing fm with
  | nil => exact ⟨rfl, rfl⟩
  | cons u rest ih =>
    unfold partitionGo
    cases hinfo : env.videoInfo u with
    | none =>
      simp only []
      exact ih fm
    | some info =>
      simp only []
      have hsnd := file_exists_snd fm (titleOf info)
        (some (if iv then "mp4" else fmt))
      have hrec : (partitionGo env fmt iv (file_exists fm (titleOf info)
            (some (if iv then "mp4" else fmt))).2 rest).2.2.output_dir = fm.output_dir
          ∧ (partitionGo env fmt iv (file_exists fm (titleOf info)
            (some (if iv then "mp4" else fmt))).2 rest).2.2.temp_dir = fm.temp_dir := by
        rw [hsnd]
        refine ⟨(ih (fmQ fm)).1.trans (fmQ_dirs fm).1,
          (ih (fmQ fm)).2.trans (fmQ_dirs fm).2⟩
      by_cases htr : truthy (file_exists fm (titleOf info)
          (some (if iv then "mp4" else fmt))).1 = true
      · rw [if_pos htr]
        exact hrec
      · rw [if_neg htr]
        exact hrec

/-- Per member, the existence pass yields exactly one of: a skip (no job)
or a download job. -/
theorem memberSkipped_job_exclusive (env : Env) (fmt : String) (iv : Bool)
    (fm : FileManager) (u : String) :
    (memberSkipped env fmt iv fm u = true ∧ memberJob env fmt iv fm u = none)
    ∨ (memberSkipped env fmt iv fm u = false
        ∧ ∃ j, memberJob env fmt iv fm u = some j ∧ j.1 = u) := by
  unfold memberSkipped memberJob
  cases hinfo : env.videoInfo u with
  | none =>
    simp only []
    exact Or.inr ⟨trivial, ⟨(u, none), rfl, rfl⟩⟩
  | some info =>
    simp only []
    by_cases htr : truthy (file_exists fm (titleOf info)
        (some (if iv then "mp4" else fmt))).1 = true
    · exact Or.inl ⟨htr, by rw [if_pos htr]⟩
    · refine Or.inr ⟨Bool.not_eq_true _ ▸ (by simpa using htr),
        ⟨(u, some info), by rw [if_neg htr], rfl⟩⟩

/-- Each member contributes exactly one outcome-or-job. -/
theorem filter_skip_add_jobs_length (env : Env) (fmt : String) (iv : Bool)
    (fm : FileManager) (l : List String) :
    (l.filter (memberSkipped env fmt iv fm)).length
      + (l.filterMap (memberJob env fmt iv fm)).length = l.length := by
  induction l with
  | nil => rfl
  | cons u rest ih =>
    rw [List.filter_cons, List.filterMap_cons]
    rcases memberSkipped_job_exclusive env fmt iv fm u with ⟨h1, h2⟩ | ⟨h1, j, h2, _⟩
    · rw [h1, h2]
      simp only [eq_self_iff_true, if_true, List.length_cons]
      omega
    · rw [h1, h2]
      simp only [Bool.false_eq_true, if_false, List.length_cons]
      omega

/-! ### The download phase as a pure map over the job list -/

theorem download_video_fst (env : Env) (fm : FileManager) (fmt : String)
    (q : Quality) (iv : Bool) (u : String) :
    (download_video env fm fmt q iv u).1 =
      dlResult env fm.output_dir fm.temp_dir fmt q iv u := by
  unfold download_video
  cases env.dl u with
  | fail msg => rfl
  | ok title prepared mainExists altExists =>
    simp only []
    by_cases hm : mainExists = true
    · rw [if_pos hm]
    · rw [if_neg hm]
      by_cases ha : altExists = true
      · rw [if_pos ha]
      · rw [if_neg ha]

theorem download_video_dirs (env : Env) (fm : FileManager) (fmt : String)
    (q : Quality) (iv : Bool) (u : String) :
    (download_video env fm fmt q iv u).2.output_dir = fm.output_dir
    ∧ (download_video env fm fmt q iv u).2.temp_dir = fm.temp_dir := by
  unfold download_video moveIntoOutput invalidate_cache
  cases env.dl u with
  | fail msg => exact ⟨rfl, rfl⟩
  | ok title prepared mainExists altExists =>
    simp only []
    by_cases hm : mainExists = true
    · rw [if_pos hm]
      exact ⟨rfl, rfl⟩
    · rw [if_neg hm]
      by_cases ha : altExists = true
      · rw [if_pos ha]
        exact ⟨rfl, rfl⟩
      · rw [if_neg ha]
        exact ⟨rfl, rfl⟩

theorem runSeq_fst (env : Env) (fmt : String) (q : Quality) (iv : Bool) :
    ∀ (fm : FileManager) (jobs : List (String × Option VideoInfo)),
      (runSeq env fmt q iv fm jobs).1 =
        jobs.map (fun j => dlResult env fm.output_dir fm.temp_dir fmt q iv j.1) := by
  intro fm jobs
  induction jobs generalizing fm with
  | nil => rfl
  | cons j rest ih =>
    unfold runSeq
    simp only []
    rw [List.map_cons]
    refine congrArg₂ List.cons ?_ ?_
    · exact download_video_fst env fm fmt q iv j.1
    · rw [ih ((download_video env fm fmt q iv j.1).2)]
      rw [(download_video_dirs env fm fmt q iv j.1).1,
        (download_video_dirs env fm fmt q iv j.1).2]

theorem memberJob_fst (env : Env) (fmt : String) (iv : Bool) (fm : FileManager)
    (u : String) (j : String × Option VideoInfo)
    (h : memberJob env fmt iv fm u = some j) : j.1 = u := by
  unfold memberJob at h
  cases hinfo : env.videoInfo u with
  | none =>
    rw [hinfo] at h
    simp only [] at h
    rw [← Option.some_inj.mp h]
  | some info =>
    rw [hinfo] at h
    simp only [] at h
    by_cases htr : truthy (file_exists fm (titleOf info)
        (some (if iv then "mp4" else fmt))).1 = true
    · rw [if_pos htr] at h
      cases h
    · rw [if_neg htr] at h
      rw [← Option.some_inj.mp h]

/-- C3: with `force = false`, `_process_playlist` partitions members into
"file already exists" (one `skipped` outcome each, no download job) and
"needs download"; a member whose metadata fetch returns `None` goes into the
download set unconditionally; and the outcome count equals the member count
for sequential and for pooled execution (any completion order). -/
theorem C3_playlist_partition (env : Env) (fm : FileManager) (url fmt : String)
    (q : Quality) (iv : Bool) (parallel : Nat)
    (jobOrder : List (String × Option VideoInfo))
    (hperm : jobOrder.Perm
      ((env.playlistVideos url).filterMap (memberJob env fmt iv fm))) :
    ((process_playlist env fm url fmt q iv false parallel jobOrder).1.length
        = (env.playlistVideos url).length)
    ∧ (partitionGo env fmt iv fm (env.playlistVideos url)).1
        = ((env.playlistVideos url).filter (memberSkipped env fmt iv fm)).map
            (skipResult env fmt iv fm)
    ∧ (partitionGo env fmt iv fm (env.playlistVideos url)).2.1
        = (env.playlistVideos url).filterMap (memberJob env fmt iv fm)
    ∧ (∀ u ∈ env.playlistVideos url, env.videoInfo u = none →
        (u, (none : Option VideoInfo))
          ∈ (partitionGo env fmt iv fm (env.playlistVideos url)).2.1)
    ∧ (∀ u ∈ env.playlistVideos url, memberSkipped env fmt iv fm u = true →
        ∀ j ∈ (partitionGo env fmt iv fm (env.playlistVideos url)).2.1, j.1 ≠ u) := by
  have hfst := partitionGo_fst env fmt iv fm (env.playlistVideos url)
  have hsnd := partitionGo_snd env fmt iv fm (env.playlistVideos url)
  refine ⟨?_, hfst, hsnd, ?_, ?_⟩
  · unfold process_playlist
    by_cases hM : (env.playlistVideos url).isEmpty
    · rw [if_pos hM]
      rw [List.isEmpty_iff] at hM
      rw [hM]
      rfl
    · rw [if_neg hM, if_pos (show ((!false) = true) by decide)]
      simp only []
      by_cases hD : (partitionGo env fmt iv fm (env.playlistVideos url)).2.1.isEmpty
      · rw [if_pos hD]
        have hlen := filter_skip_add_jobs_length env fmt iv fm (env.playlistVideos url)
        have h0 : ((env.playlistVideos url).filterMap
            (memberJob env fmt iv fm)).length = 0 := by
          rw [← hsnd]
          rw [List.isEmpty_iff] at hD
          rw [hD]
          rfl
        rw [hfst, List.length_map]
        omega
      · rw [if_neg hD]
        simp only [List.length_append]
        have horder : ((if parallel = 0
            then (partitionGo env fmt iv fm (env.playlistVideos url)).2.1
            else jobOrder)).length
            = (partitionGo env fmt iv fm (env.playlistVideos url)).2.1.length := by
          by_cases hp : parallel = 0
          · rw [if_pos hp]
          · rw [if_neg hp, hsnd]
            exact hperm.length_eq
        rw [runSeq_fst, List.length_map, horder, hfst, List.length_map, hsnd]
        exact filter_skip_add_jobs_length env fmt iv fm (env.playlistVideos url)
  · intro u hu hinfo
    rw [hsnd]
    rw [List.mem_filterMap]
    refine ⟨u, hu, ?_⟩
    unfold memberJob
    rw [hinfo]
  · intro u hu hskip j hj hjfst
    rw [hsnd] at hj
    rw [List.mem_filterMap] at hj
    obtain ⟨u2, hu2, hju2⟩ := hj
    have hj1 : j.1 = u2 := memberJob_fst env fmt iv fm u2 j hju2
    rw [hjfst] at hj1
    rw [← hj1] at hju2
    rcases memberSkipped_job_exclusive env fmt iv fm u with ⟨_, hnone⟩ | ⟨hfalse, _⟩
    · rw [hnone] at hju2
      cases hju2
    · rw [hskip] at hfalse
      cases hfalse

/-- A three-member playlist: `u1` resolves to an already-downloaded title,
`u2`'s metadata fetch fails, `u3` needs downloading. -/
def playlistEnv : Env :=
  { videoInfo := fun u =>
      if u = "u1" then some ⟨some "Song A"⟩
      else if u = "u2" then none
      else some ⟨some "Song C"⟩
    playlistVideos := fun _ => ["u1", "u2", "u3"]
    dl := fun _ => .ok "Song" "temp_downloads/Song.webm" true false }

def playlistFM : FileManager :=
  { output_dir := "downloads", temp_dir := "temp_downloads",
    listing := ["Song A.mp3"], dirExists := true, cache := [], cacheInit := false }

/-- Witness for `C3_playlist_partition`: 3 members, 1 existing → 3 outcomes,
and the metadata-failed member `u2` sits in the download set. -/
theorem C3_playlist_partition_witness :
    ((process_playlist playlistEnv playlistFM "P" "mp3" .medium false false 0
        (("u1" :: "u2" :: "u3" :: []).filterMap
          (memberJob playlistEnv "mp3" false playlistFM))).1.length = 3)
    ∧ ("u2", (none : Option VideoInfo))
        ∈ (partitionGo playlistEnv "mp3" false playlistFM
            (playlistEnv.playlistVideos "P")).2.1 := by
  have h := C3_playlist_partition playlistEnv playlistFM "P" "mp3" .medium false 0
    (("u1" :: "u2" :: "u3" :: []).filterMap
      (memberJob playlistEnv "mp3" false playlistFM))
    (List.Perm.refl _)
  exact ⟨h.1.trans (by decide), h.2.2.2.1 "u2" (by decide) (by decide)⟩

/-- The download jobs `_process_playlist` submits for a fixed input. -/
def scheduledJobs (env : Env) (fm : FileManager) (url fmt : String) (iv : Bool)
    (force : Bool) : List (String × Option VideoInfo) :=
  if force then (env.playlistVideos url).map (fun u => (u, env.videoInfo u))
  else (env.playlistVideos url).filterMap (memberJob env fmt iv fm)

/-- A two-member playlist whose second member's file already exists. -/
def mixedEnv : Env :=
  { videoInfo := fun u => if u = "u1" then some ⟨some "t1"⟩ else some ⟨some "t2"⟩
    playlistVideos := fun _ => ["u1", "u2"]
    dl := fun _ => .ok "t1" "temp_downloads/t1.webm" true false }

def mixedFM : FileManager :=
  { output_dir := "downloads", temp_dir := "temp_downloads",
    listing := ["t2.mp3"], dirExists := true, cache := [], cacheInit := false }

/-- C8 counterexample: with concurrency 0 and `force = false` the outcome
list is NOT in strict input order, because the `skipped` outcomes computed
during the existence pass are emitted before all download outcomes: members
`[u1 (needs download), u2 (exists)]` come back as `[u2, u1]`. -/
theorem C8_input_order_counterexample :
    mixedEnv.playlistVideos "P" = ["u1", "u2"]
    ∧ ((process_playlist mixedEnv mixedFM "P" "mp3" .medium false false 0 []).1.map
        (fun r => r.url)) = ["u2", "u1"]
    ∧ ((process_playlist mixedEnv mixedFM "P" "mp3" .medium false false 0 []).1.map
        (fun r => r.url)) ≠ ["u1", "u2"] := by
  refine ⟨rfl, by decide, by decide⟩

/-- Closed-form result list of `_process_playlist` for any pool size and
completion order. -/
theorem process_playlist_results (env : Env) (fm : FileManager) (url fmt : String)
    (q : Quality) (iv : Bool) (force : Bool) (parallel : Nat)
    (jobOrder : List (String × Option VideoInfo)) :
    (process_playlist env fm url fmt q iv force parallel jobOrder).1
      = if (env.playlistVideos url).isEmpty then []
        else if force then
          ((if parallel = 0
            then (env.playlistVideos url).map (fun u => (u, env.videoInfo u))
            else jobOrder).map
              (fun j => dlResult env fm.output_dir fm.temp_dir fmt q iv j.1))
        else if ((env.playlistVideos url).filterMap (memberJob env fmt iv fm)).isEmpty then
          ((env.playlistVideos url).filter (memberSkipped env fmt iv fm)).map
            (skipResult env fmt iv fm)
        else
          ((env.playlistVideos url).filter (memberSkipped env fmt iv fm)).map
              (skipResult env fmt iv fm)
            ++ ((if parallel = 0
                then (env.playlistVideos url).filterMap (memberJob env fmt iv fm)
                else jobOrder).map
                  (fun j => dlResult env fm.output_dir fm.temp_dir fmt q iv j.1)) := by
  have hfst := partitionGo_fst env fmt iv fm (env.playlistVideos url)
  have hsnd := partitionGo_snd env fmt iv fm (env.playlistVideos url)
  have hdirs := partitionGo_dirs env fmt iv fm (env.playlistVideos url)
  unfold process_playlist
  simp only []
  by_cases hM : (env.playlistVideos url).isEmpty = true
  · rw [if_pos hM]
    rw [if_pos hM]
  · rw [if_neg hM]
    rw [if_neg hM]
    cases force with
    | false =>
      rw [if_pos (show ((!false) = true) by decide)]
      rw [if_neg (show ¬((false : Bool) = true) by decide)]
      by_cases hD : (partitionGo env fmt iv fm (env.playlistVideos url)).2.1.isEmpty = true
      · have hD2 : ((env.playlistVideos url).filterMap
            (memberJob env fmt iv fm)).isEmpty = true := by
          rw [← hsnd]
          exact hD
        rw [if_pos hD, if_pos hD2]
        exact hfst
      · have hD2 : ¬ ((env.playlistVideos url).filterMap
            (memberJob env fmt iv fm)).isEmpty = true := by
          rw [← hsnd]
          exact hD
        rw [if_neg hD, if_neg hD2]
        refine congrArg₂ (· ++ ·) hfst ?_
        by_cases hp : parallel = 0
        · rw [if_pos hp, if_pos hp]
          rw [runSeq_fst, hdirs.1, hdirs.2, hsnd]
        · rw [if_neg hp, if_neg hp]
          rw [runSeq_fst, hdirs.1, hdirs.2]
    | true =>
      rw [if_neg (show ¬((!true) = true) by decide)]
      rw [if_pos (show ((true : Bool) = true) from rfl)]
      have hW : ¬ ((env.playlistVideos url).map
          (fun u => (u, env.videoInfo u))).isEmpty = true := by
        intro hc
        apply hM
        rw [List.isEmpty_iff] at hc ⊢
        exact List.map_eq_nil_iff.mp hc
      rw [if_neg hW]
      by_cases hp : parallel = 0
      · rw [if_pos hp]
        rw [runSeq_fst]
      · rw [if_neg hp]
        rw [runSeq_fst]

/-- C8 (amended): for every pool size 0-8 and completion order, the multiset
of `(source url, status)` pairs equals the sequential run's; with
concurrency 0 the order is deterministic: the `skipped` outcomes in member
order, then the download outcomes in member order (hence full input order
exactly when nothing is skipped, e.g. under `force`). -/
theorem C8_pool_equivalence (env : Env) (fm : FileManager) (url fmt : String)
    (q : Quality) (iv : Bool) (force : Bool) (parallel : Nat)
    (hpar : parallel ≤ 8) (jobOrder : List (String × Option VideoInfo))
    (hperm : jobOrder.Perm (scheduledJobs env fm url fmt iv force)) :
    ((process_playlist env fm url fmt q iv force parallel jobOrder).1.map
        (fun r => (r.url, r.status))).Perm
      ((process_playlist env fm url fmt q iv force 0 []).1.map
        (fun r => (r.url, r.status)))
    ∧ (force = false →
        (process_playlist env fm url fmt q iv false 0 []).1
          = ((env.playlistVideos url).filter (memberSkipped env fmt iv fm)).map
              (skipResult env fmt iv fm)
            ++ ((env.playlistVideos url).filterMap (memberJob env fmt iv fm)).map
              (fun j => dlResult env fm.output_dir fm.temp_dir fmt q iv j.1))
    ∧ (force = true →
        (process_playlist env fm url fmt q iv true 0 []).1
          = (env.playlistVideos url).map
              (fun u => dlResult env fm.output_dir fm.temp_dir fmt q iv u)) := by
  have hchar := process_playlist_results env fm url fmt q iv force parallel jobOrder
  have hchar0 := process_playlist_results env fm url fmt q iv force 0 []
  rw [if_pos rfl] at hchar0
  rw [if_pos rfl] at hchar0
  refine ⟨?_, ?_, ?_⟩
  · rw [hchar, hchar0]
    by_cases hM : (env.playlistVideos url).isEmpty = true
    · rw [if_pos hM, if_pos hM]
    · rw [if_neg hM, if_neg hM]
      cases force with
      | false =>
        rw [if_neg (show ¬((false : Bool) = true) by decide),
          if_neg (show ¬((false : Bool) = true) by decide)]
        unfold scheduledJobs at hperm
        rw [if_neg (show ¬((false : Bool) = true) by decide)] at hperm
        by_cases hD : ((env.playlistVideos url).filterMap
            (memberJob env fmt iv fm)).isEmpty = true
        · rw [if_pos hD, if_pos hD]
        · rw [if_neg hD, if_neg hD]
          rw [List.map_append, List.map_append]
          refine List.Perm.append_left _ ?_
          by_cases hp : parallel = 0
          · rw [if_pos hp]
          · rw [if_neg hp]
            rw [List.map_map, List.map_map]
            exact List.Perm.map _ hperm
      | true =>
        rw [if_pos (show ((true : Bool) = true) from rfl),
          if_pos (show ((true : Bool) = true) from rfl)]
        unfold scheduledJobs at hperm
        rw [if_pos (show ((true : Bool) = true) from rfl)] at hperm
        by_cases hp : parallel = 0
        · rw [if_pos hp]
        · rw [if_neg hp]
          rw [List.map_map, List.map_map]
          exact List.Perm.map _ hperm
  · intro hforce
    subst hforce
    have h0 := process_playlist_results env fm url fmt q iv false 0 []
    rw [if_pos rfl] at h0
    rw [if_pos rfl] at h0
    rw [h0]
    rw [if_neg (show ¬((false : Bool) = true) by decide)]
    by_cases hM : (env.playlistVideos url).isEmpty = true
    · rw [if_pos hM]
      rw [List.isEmpty_iff] at hM
      rw [hM]
      rfl
    · rw [if_neg hM]
      by_cases hD : ((env.playlistVideos url).filterMap
          (memberJob env fmt iv fm)).isEmpty = true
      · rw [if_pos hD]
        rw [List.isEmpty_iff] at hD
        rw [hD, List.map_nil, List.append_nil]
      · rw [if_neg hD]
  · intro hforce
    subst hforce
    have h0 := process_playlist_results env fm url fmt q iv true 0 []
    rw [if_pos rfl] at h0
    rw [if_pos rfl] at h0
    rw [h0]
    by_cases hM : (env.playlistVideos url).isEmpty = true
    · rw [if_pos hM]
      rw [List.isEmpty_iff] at hM
      rw [hM]
      rfl
    · rw [if_neg hM]
      rw [List.map_map]
      rfl

/-- Witness for `C8_pool_equivalence`: pool size 3 with reversed completion
order against the sequential run on the mixed two-member playlist. -/
theorem C8_pool_equivalence_witness :
    ((process_playlist mixedEnv mixedFM "P" "mp3" .medium false false 3
        (scheduledJobs mixedEnv mixedFM "P" "mp3" false false).reverse).1.map
        (fun r => (r.url, r.status))).Perm
      ((process_playlist mixedEnv mixedFM "P" "mp3" .medium false false 0 []).1.map
        (fun r => (r.url, r.status)))
    ∧ (process_playlist mixedEnv mixedFM "P" "mp3" .medium false false 0 []).1
        = (["u1", "u2"].filter (memberSkipped mixedEnv "mp3" false mixedFM)).map
            (skipResult mixedEnv "mp3" false mixedFM)
          ++ (["u1", "u2"].filterMap (memberJob mixedEnv "mp3" false mixedFM)).map
            (fun j =>
              dlResult mixedEnv "downloads" "temp_downloads" "mp3" .medium false j.1) := by
  have h := C8_pool_equivalence mixedEnv mixedFM "P" "mp3" .medium false false 3
    (by decide) (scheduledJobs mixedEnv mixedFM "P" "mp3" false false).reverse
    (List.reverse_perm _)
  exact ⟨h.1, (h.2.1 rfl).trans (by decide)⟩

/-! ### Outcome invariants (stage-boundary shape of every `DownloadResult`) -/

/-- The spec's Outcome invariant: a three-valued status, non-empty error
detail on `error`, non-empty file path on `success`/`skipped`. -/
def OutcomeInv (r : DownloadResult) : Prop :=
  (r.status = "success" ∨ r.status = "error" ∨ r.status = "skipped")
  ∧ (r.status = "error" → r.error ≠ "")
  ∧ ((r.status = "success" ∨ r.status = "skipped") → r.file_path ≠ "")

theorem append_ne_empty_left (a b : String) (h : a ≠ "") : a ++ b ≠ "" := by
  intro he
  apply h
  have hd := congrArg String.data he
  rw [String.data_append] at hd
  have hnil : a.data = [] := (List.append_eq_nil.mp hd).1
  calc a = (⟨a.data⟩ : String) := rfl
    _ = (⟨[]⟩ : String) := by rw [hnil]
    _ = "" := rfl

theorem pyJoin_ne_empty (d f : String) (hd : d ≠ "") : pyJoin d f ≠ "" := by
  unfold pyJoin
  by_cases h1 : ['/'].isPrefixOf f.data
  · rw [if_pos h1]
    intro he
    have hf := congrArg String.data he
    rw [hf] at h1
    simp at h1
  · rw [if_neg h1, if_neg hd]
    by_cases h2 : ['/'].isSuffixOf d.data
    · rw [if_pos h2]
      exact append_ne_empty_left d f hd
    · rw [if_neg h2]
      exact append_ne_empty_left (d ++ "/") f (append_ne_empty_left d "/" hd)

theorem truthy_getD_ne (o : Option String) (h : truthy o = true) : o.getD "" ≠ "" := by
  cases o with
  | none => cases h
  | some s =>
    unfold truthy at h
    simpa using h

theorem dlResult_inv (env : Env) (outDir tempDir fmt : String) (q : Quality)
    (iv : Bool) (u : String) (hOD : outDir ≠ "")
    (hmsg : ∀ m, env.dl u = .fail m → m ≠ "") :
    OutcomeInv (dlResult env outDir tempDir fmt q iv u) := by
  unfold dlResult
  cases hdl : env.dl u with
  | fail msg =>
    simp only []
    exact ⟨Or.inr (Or.inl rfl), fun _ => hmsg msg hdl, fun hc => absurd hc (by simp)⟩
  | ok title prepared mainExists altExists =>
    simp only []
    by_cases hm : mainExists = true
    · rw [if_pos hm]
      exact ⟨Or.inl rfl, fun hc => absurd hc (by simp),
        fun _ => pyJoin_ne_empty _ _ hOD⟩
    · rw [if_neg hm]
      by_cases ha : altExists = true
      · rw [if_pos ha]
        exact ⟨Or.inl rfl, fun hc => absurd hc (by simp),
          fun _ => pyJoin_ne_empty _ _ hOD⟩
      · rw [if_neg ha]
        exact ⟨Or.inr (Or.inl rfl), fun _ => append_ne_empty_left _ _ (by decide),
          fun hc => absurd hc (by simp)⟩

theorem skipResult_inv (env : Env) (fmt : String) (iv : Bool) (fm : FileManager)
    (u : String) (h : memberSkipped env fmt iv fm u = true) :
    OutcomeInv (skipResult env fmt iv fm u) := by
  unfold memberSkipped at h
  unfold skipResult
  cases hinfo : env.videoInfo u with
  | none =>
    rw [hinfo] at h
    cases h
  | some info =>
    rw [hinfo] at h
    simp only [] at h
    exact ⟨Or.inr (Or.inr rfl), fun hc => absurd hc (by simp),
      fun _ => truthy_getD_ne _ h⟩

theorem convert_file_inv (r : DownloadResult) (fmt : String) (q : Quality)
    (fs : List String) (rc : Int) (h : OutcomeInv r) :
    OutcomeInv (convert_file r fmt q fs rc).1 := by
  by_cases h1 : r.status = "success"
  · by_cases h2 : r.file_path = "" ∨ r.file_path ∉ fs
    · rw [convert_file_missing r fmt q fs rc h1 h2]
      exact ⟨Or.inr (Or.inl rfl), fun _ => by simp, fun hc => absurd hc (by simp)⟩
    · push_neg at h2
      by_cases h3 : lowerStr (currentExt r.file_path) = lowerStr fmt
      · rw [convert_file_extmatch r fmt q fs rc h1 h2.1 h2.2 h3]
        exact h
      · by_cases h4 : rc = 0
        · subst h4
          rw [convert_file_rc_zero r fmt q fs h1 h2.1 h2.2 h3]
          refine ⟨Or.inl h1, fun hc => absurd (h1.symm.trans hc) (by decide),
            fun _ => ?_⟩
          exact concat_dot_ne_empty _ _
        · rw [convert_file_rc_nonzero r fmt q fs rc h1 h2.1 h2.2 h3 h4]
          exact ⟨Or.inr (Or.inl rfl), fun _ => append_ne_empty_left _ _ (by decide),
            fun hc => absurd hc (by simp)⟩
  · rw [convert_file_not_success r fmt q fs rc h1]
    exact h

theorem convertSeq_mem (fmt : String) (q : Quality) (rcOf : DownloadResult → Int) :
    ∀ (fs : List String) (order : List DownloadResult) (r : DownloadResult),
      r ∈ (convertSeq fmt q rcOf fs order).1 →
      ∃ x ∈ order, ∃ fs2, r = (convert_file x fmt q fs2 (rcOf x)).1 := by
  intro fs order
  induction order generalizing fs with
  | nil =>
    intro r hr
    cases hr
  | cons x rest ih =>
    intro r hr
    unfold convertSeq at hr
    rcases List.mem_cons.mp hr with hr | hr
    · exact ⟨x, List.mem_cons_self x rest, fs, hr⟩
    · obtain ⟨y, hy, fs2, hyr⟩ := ih _ r hr
      exact ⟨y, List.mem_cons_of_mem x hy, fs2, hyr⟩

theorem batch_convert_inv (results : List DownloadResult) (fmt : String)
    (q : Quality) (fs : List String) (par : Nat) (rcOf : DownloadResult → Int)
    (convOrder : List DownloadResult)
    (hperm : convOrder.Perm
      (results.filter (fun r => decide (r.status = "success"))))
    (h : ∀ r ∈ results, OutcomeInv r) :
    ∀ r ∈ (batch_convert results fmt q fs par rcOf convOrder).1, OutcomeInv r := by
  unfold batch_convert
  simp only []
  by_cases hS : (results.filter (fun r => decide (r.status = "success"))).isEmpty = true
  · rw [if_pos hS]
    exact h
  · rw [if_neg hS]
    intro r hr
    rcases List.mem_append.mp hr with hr | hr
    · obtain ⟨x, hx, fs2, hxr⟩ := convertSeq_mem fmt q rcOf _ _ r hr
      have hx2 : x ∈ results.filter (fun r => decide (r.status = "success")) := by
        by_cases hp : par = 0
        · rw [if_pos hp] at hx
          exact hx
        · rw [if_neg hp] at hx
          exact hperm.mem_iff.mp hx
      have hxres : x ∈ results := List.mem_of_mem_filter hx2
      rw [hxr]
      exact convert_file_inv x fmt q fs2 (rcOf x) (h x hxres)
    · exact h r (List.mem_of_mem_filter hr)

theorem process_url_inv (env : Env) (fm : FileManager) (url fmt : String)
    (q : Quality) (iv force : Bool) (parallel : Nat) (hasTracker : Bool)
    (jobOrder : List (String × Option VideoInfo))
    (hOD : fm.output_dir ≠ "")
    (hmsg : ∀ u m, env.dl u = .fail m → m ≠ "") :
    ∀ r ∈ (process_url env fm url fmt q iv force parallel hasTracker jobOrder).1,
      OutcomeInv r := by
  unfold process_url
  cases validate_url url with
  | none =>
    intro r hr
    exact absurd hr (List.not_mem_nil r)
  | some k =>
    cases k with
    | video =>
      simp only []
      intro r hr
      unfold process_single_video at hr
      cases hinfo : env.videoInfo url with
      | none =>
        rw [hinfo] at hr
        simp only [] at hr
        rw [List.mem_singleton.mp hr]
        exact ⟨Or.inr (Or.inl rfl), fun _ => by simp,
          fun hc => absurd hc (by simp)⟩
      | some info =>
        rw [hinfo] at hr
        simp only [] at hr
        by_cases hc : ((truthy (file_exists fm (titleOf info)
            (some (if iv then "mp4" else fmt))).1 && !force) = true)
        · rw [if_pos hc] at hr
          simp only [] at hr
          rw [List.mem_singleton.mp hr]
          have htr : truthy (file_exists fm (titleOf info)
              (some (if iv then "mp4" else fmt))).1 = true :=
            (Bool.and_eq_true _ _ |>.mp hc).1
          exact ⟨Or.inr (Or.inr rfl), fun hx => absurd hx (by simp),
            fun _ => truthy_getD_ne _ htr⟩
        · rw [if_neg hc] at hr
          simp only [] at hr
          rw [List.mem_singleton.mp hr]
          rw [download_video_fst]
          have hq2 := file_exists_snd fm (titleOf info)
            (some (if iv then "mp4" else fmt))
          rw [hq2, (fmQ_dirs fm).1, (fmQ_dirs fm).2]
          exact dlResult_inv env fm.output_dir fm.temp_dir fmt q iv url hOD
            (fun m => hmsg url m)
    | playlist =>
      intro r hr
      rw [process_playlist_results] at hr
      by_cases hM : (env.playlistVideos url).isEmpty = true
      · rw [if_pos hM] at hr
        exact absurd hr (List.not_mem_nil r)
      · rw [if_neg hM] at hr
        have hdl : ∀ (jobs : List (String × Option VideoInfo)),
            r ∈ jobs.map (fun j =>
              dlResult env fm.output_dir fm.temp_dir fmt q iv j.1) →
            OutcomeInv r := by
          intro jobs hj
          rw [List.mem_map] at hj
          obtain ⟨j, _, hjr⟩ := hj
          rw [← hjr]
          exact dlResult_inv env fm.output_dir fm.temp_dir fmt q iv j.1 hOD
            (fun m => hmsg j.1 m)
        have hskips : r ∈ ((env.playlistVideos url).filter
              (memberSkipped env fmt iv fm)).map (skipResult env fmt iv fm) →
            OutcomeInv r := by
          intro hs
          rw [List.mem_map] at hs
          obtain ⟨u, hu, hur⟩ := hs
          rw [List.mem_filter] at hu
          rw [← hur]
          exact skipResult_inv env fmt iv fm u hu.2
        by_cases hF : force = true
        · rw [if_pos hF] at hr
          exact hdl _ hr
        · rw [if_neg hF] at hr
          by_cases hD : ((env.playlistVideos url).filterMap
              (memberJob env fmt iv fm)).isEmpty = true
          · rw [if_pos hD] at hr
            exact hskips hr
          · rw [if_neg hD] at hr
            rcases List.mem_append.mp hr with hr | hr
            · exact hskips hr
            · exact hdl _ hr

/-- C7: every Outcome observable at a stage boundary (the list returned by
`process_url`, and the list returned by `batch_convert` on well-formed
inputs) has one of the three statuses, non-empty error text when `error`,
and a non-empty path when `success`/`skipped`.  Hypotheses: the output
directory name is non-empty and the external fetch library's exception
texts are non-empty. -/
theorem C7_outcome_invariants (env : Env) (fm : FileManager) (url fmt : String)
    (q : Quality) (iv force : Bool) (parallel : Nat) (hasTracker : Bool)
    (jobOrder : List (String × Option VideoInfo))
    (hOD : fm.output_dir ≠ "")
    (hmsg : ∀ u m, env.dl u = .fail m → m ≠ "") :
    (∀ r ∈ (process_url env fm url fmt q iv force parallel hasTracker jobOrder).1,
      OutcomeInv r)
    ∧ ∀ (results : List DownloadResult) (fs : List String) (par2 : Nat)
        (rcOf : DownloadResult → Int) (convOrder : List DownloadResult),
        convOrder.Perm (results.filter (fun r => decide (r.status = "success"))) →
        (∀ r ∈ results, OutcomeInv r) →
        ∀ r ∈ (batch_convert results fmt q fs par2 rcOf convOrder).1, OutcomeInv r :=
  ⟨process_url_inv env fm url fmt q iv force parallel hasTracker jobOrder hOD hmsg,
   fun results fs par2 rcOf convOrder hperm h =>
     batch_convert_inv results fmt q fs par2 rcOf convOrder hperm h⟩

def failEnv : Env :=
  { videoInfo := fun _ => none
    playlistVideos := fun _ => []
    dl := fun _ => .fail "network unreachable" }

/-- Witness for `C7_outcome_invariants`: a metadata-failed single video
yields an invariant-satisfying error Outcome, and `batch_convert` on a
`skipped` Outcome preserves the invariant. -/
theorem C7_outcome_invariants_witness :
    OutcomeInv ⟨"https://youtu.be/dQw4w9WgXcQ", "error", "", "",
      "Could not retrieve video info"⟩
    ∧ (∀ r ∈ (batch_convert [⟨"v", "skipped", "downloads/a.mp3", "t", ""⟩]
        "mp3" .medium [] 0 (fun _ => 0) []).1, OutcomeInv r) := by
  have h := C7_outcome_invariants failEnv demoFM "https://youtu.be/dQw4w9WgXcQ"
    "mp3" .medium false false 0 false [] (by decide)
    (by intro u m hm; injection hm with h1; rw [← h1]; decide)
  constructor
  · refine h.1 _ ?_
    show _ ∈ (process_url failEnv demoFM "https://youtu.be/dQw4w9WgXcQ"
      "mp3" .medium false false 0 false []).1
    decide
  · refine h.2 [⟨"v", "skipped", "downloads/a.mp3", "t", ""⟩] [] 0 (fun _ => 0) []
      (by decide) ?_
    intro r hr
    rw [List.mem_singleton.mp hr]
    exact ⟨Or.inr (Or.inr rfl), fun hc => absurd hc (by decide), fun _ => by decide⟩

end YMD
